import Mathlib

set_option maxHeartbeats 4000000
set_option maxRecDepth 4000

/-!
Verification development for AliasForge (aliasforge.py).

Strings are modelled as `List Char` (the sequence of characters of a Python
`str`); all routines below are direct translations of the corresponding
Python functions, keeping their names.
-/

/-- Model of Python `str.strip()`: remove leading and trailing whitespace. -/
def stripChars (l : List Char) : List Char :=
  ((l.dropWhile Char.isWhitespace).reverse.dropWhile Char.isWhitespace).reverse

/-- Model of Python `s[-n:]`: the last `n` characters (all of `s` if shorter). -/
def takeRight (l : List Char) (n : Nat) : List Char :=
  l.drop (l.length - n)

/-- Model of Python `str.zfill(2)`: left-pad with zeros to width 2, keeping a
leading sign in front. -/
def zfill2 : List Char → List Char
  | [] => ['0', '0']
  | [c] => if c = '+' || c = '-' then [c, '0'] else ['0', c]
  | l => l

/-- Model of Python `s.replace("-", "/")` (single-character pattern). -/
def replaceDash (l : List Char) : List Char :=
  l.map (fun c => if c = '-' then '/' else c)

/-- Split at every character satisfying `p`, keeping empty pieces
(the behaviour of Python `str.split(sep)` at each separator occurrence). -/
def splitPred (p : Char → Bool) : List Char → List (List Char)
  | [] => [[]]
  | c :: rest =>
    match splitPred p rest with
    | [] => [[]]
    | h :: t => if p c then [] :: h :: t else (c :: h) :: t

/-- Model of Python `str.split("/")`. -/
def splitOnChar (sep : Char) (l : List Char) : List (List Char) :=
  splitPred (fun c => c = sep) l

/-- Model of Python `str.split()` (no argument): split on whitespace runs,
dropping empty pieces. -/
def pysplit (l : List Char) : List (List Char) :=
  (splitPred Char.isWhitespace l).filter (fun x => x ≠ [])

/-- aliasforge.py `ini`: first character lowercased, or empty. -/
def ini : List Char → List Char
  | [] => []
  | c :: _ => [Char.toLower c]

/-- aliasforge.py `low`: lowercase the whole string. -/
def low (s : List Char) : List Char :=
  s.map Char.toLower

/-- aliasforge.py `MIN_LEN`. -/
def MIN_LEN : Nat := 6

/-- aliasforge.py `MAX_LEN_CN`. -/
def MAX_LEN_CN : Nat := 16

/-- aliasforge.py `MAX_LEN_EN`. -/
def MAX_LEN_EN : Nat := 18

/-- The loop body of aliasforge.py `trim`, with the `seen` set made explicit
(as the list of strings already kept). -/
def trimGo (maxlen : Nat) : List (List Char) → List (List Char) → List (List Char)
  | _, [] => []
  | seen, x :: xs =>
    let y := stripChars x
    if y ≠ [] ∧ MIN_LEN ≤ y.length ∧ y.length ≤ maxlen ∧ y ∉ seen then
      y :: trimGo maxlen (y :: seen) xs
    else
      trimGo maxlen seen xs

/-- aliasforge.py `trim`: dedupe, enforce length window, preserve order. -/
def trim (lst : List (List Char)) (maxlen : Nat) : List (List Char) :=
  trimGo maxlen [] lst

/-- The tuple `(yr4, yr2, dy2, md)` returned by aliasforge.py `parse_dates`. -/
structure DateTokens where
  yr4 : List Char
  yr2 : List Char
  dy2 : List Char
  md : List Char
deriving DecidableEq, Repr

/-- aliasforge.py `parse_dates`. -/
def parse_dates (year dob : List Char) : DateTokens :=
  let yr4 := if year ≠ [] then takeRight (stripChars year) 4 else []
  let yr2 := if year ≠ [] then takeRight yr4 2 else []
  if dob ≠ [] then
    match splitOnChar '/' (replaceDash (stripChars dob)) with
    | [p1, p2, p3] =>
      let yr4' := if yr4 = [] then p1 else yr4
      let yr2' := if yr4 = [] then takeRight p1 2 else yr2
      let mo := zfill2 p2
      let dy := zfill2 p3
      ⟨yr4', yr2', takeRight dy 2, mo ++ dy⟩
    | _ => ⟨yr4, yr2, [], []⟩
  else ⟨yr4, yr2, [], []⟩

/-- The date-suffix list `dates = [x for x in [yr4, yr2, md, dy2] if x]`
built identically in `generate_chinese` and `generate_western`. -/
def datesOf (year dob : List Char) : List (List Char) :=
  let d := parse_dates year dob
  [d.yr4, d.yr2, d.md, d.dy2].filter (fun x => x ≠ [])

/-- The single dot separator. -/
def dotC : List Char := ['.']

/-- The tokens derived at the top of aliasforge.py `generate_chinese`. -/
structure CnTokens where
  s : List Char
  a : List Char
  a2 : List Char
  g1 : List Char
  g2 : List Char
  g : List Char
  si : List Char
  g1i : List Char
  g2i : List Char
  gi : List Char
  ai : List Char
  init_sg : List Char
  init_as : List Char
  init_asg : List Char
  yr4 : List Char
  yr2 : List Char
  dy2 : List Char
  md : List Char
  dates : List (List Char)
deriving Repr

/-- Token derivation of `generate_chinese` (lines `s = low(last.strip())` …
`dates = [...]`). -/
def cnDerive (last first alias1 alias2 year dob : List Char) : CnTokens :=
  let s := low (stripChars last)
  let a := if alias1 ≠ [] then low (stripChars alias1) else []
  let a2 := if alias2 ≠ [] then low (stripChars alias2) else []
  let gparts := pysplit (low (stripChars first))
  let g1 := match gparts with | p :: _ => p | [] => []
  let g2 := match gparts with | _ :: p :: _ => p | _ => []
  let g := g1 ++ g2
  let si := ini s
  let g1i := ini g1
  let g2i := if g2 ≠ [] then ini g2 else []
  let gi := g1i ++ g2i
  let ai := if a ≠ [] then ini a else []
  let init_sg := si ++ gi
  let init_as := if ai ≠ [] then ai ++ si else []
  let init_asg := if ai ≠ [] then ai ++ init_sg else []
  let d := parse_dates year dob
  ⟨s, a, a2, g1, g2, g, si, g1i, g2i, gi, ai, init_sg, init_as, init_asg,
    d.yr4, d.yr2, d.dy2, d.md, datesOf year dob⟩

/-- Tiers 1–10 plus the default ALIAS2 block of `generate_chinese`
(everything appended to `combos` before the `if full:` block), in order. -/
def chineseBase (t : CnTokens) : List (List Char) :=
  (if t.a ≠ [] then
    t.dates.flatMap (fun d => [t.a ++ d])
    ++ (if t.dy2 ≠ [] ∧ t.yr2 ≠ [] then [t.a ++ t.dy2 ++ t.yr2] else [])
    ++ [t.a ++ t.si, t.a ++ dotC ++ t.si, t.si ++ dotC ++ t.a]
    ++ [t.init_as, t.init_asg, t.ai ++ dotC ++ t.s]
  else [])
  ++ (if t.a ≠ [] then
    [t.a ++ t.g, t.a ++ dotC ++ t.g, t.g ++ dotC ++ t.a]
    ++ t.dates.flatMap (fun d => [t.a ++ t.g ++ d, t.a ++ dotC ++ t.g ++ d])
  else [])
  ++ (if t.a ≠ [] then
    [t.a ++ t.init_sg, t.a ++ dotC ++ t.init_sg, t.init_sg ++ dotC ++ t.a]
    ++ t.dates.flatMap (fun d => [t.a ++ t.init_sg ++ d, t.a ++ dotC ++ t.init_sg ++ d])
  else [])
  ++ (if t.a ≠ [] then
    [t.a ++ t.s, t.a ++ dotC ++ t.s, t.s ++ dotC ++ t.a]
    ++ t.dates.flatMap (fun d => [t.a ++ t.s ++ d, t.a ++ dotC ++ t.s ++ d])
  else [])
  ++ (if t.g2 ≠ [] then
    t.dates.flatMap (fun d => [t.g2 ++ d])
    ++ (if t.dy2 ≠ [] ∧ t.yr2 ≠ [] then [t.g2 ++ t.dy2 ++ t.yr2] else [])
    ++ [t.g2 ++ t.si, t.g2 ++ dotC ++ t.si, t.si ++ dotC ++ t.g2]
    ++ t.dates.flatMap (fun d => [t.g2 ++ t.si ++ d, t.g2 ++ dotC ++ t.si ++ d])
  else [])
  ++ (if t.g2 ≠ [] then
    [t.g2 ++ t.g, t.g2 ++ dotC ++ t.g]
    ++ t.dates.flatMap (fun d => [t.g2 ++ t.g ++ d, t.g2 ++ dotC ++ t.g ++ d])
    ++ [t.g2 ++ t.init_sg, t.g2 ++ dotC ++ t.init_sg, t.init_sg ++ dotC ++ t.g2]
    ++ t.dates.flatMap (fun d => [t.g2 ++ t.init_sg ++ d, t.g2 ++ dotC ++ t.init_sg ++ d])
    ++ [t.g2 ++ t.s, t.g2 ++ dotC ++ t.s, t.s ++ dotC ++ t.g2]
    ++ t.dates.flatMap (fun d => [t.g2 ++ t.s ++ d, t.g2 ++ dotC ++ t.s ++ d])
  else [])
  ++ ([t.g ++ t.si, t.g ++ dotC ++ t.si, t.si ++ dotC ++ t.g]
    ++ t.dates.flatMap (fun d => [t.g ++ t.si ++ d, t.g ++ dotC ++ t.si ++ d]))
  ++ t.dates.flatMap (fun d => [t.g ++ d])
  ++ ([t.s ++ t.gi, t.init_sg, t.s ++ dotC ++ t.gi]
    ++ t.dates.flatMap (fun d => [t.s ++ t.gi ++ d, t.init_sg ++ d]))
  ++ [t.s ++ t.g, t.g ++ t.s]
  ++ (if t.a2 ≠ [] then
    [t.a2 ++ t.g, t.a2 ++ t.s, t.g ++ dotC ++ t.a2,
      if t.a ≠ [] then t.a ++ dotC ++ t.a2 else []]
    ++ t.dates.flatMap (fun d => [t.a2 ++ d, t.a2 ++ t.g ++ d])
  else [])

/-- The `if full:` block of `generate_chinese`, in order. -/
def chineseExtra (t : CnTokens) : List (List Char) :=
  (if t.a ≠ [] then
    t.dates.flatMap (fun d =>
      [t.a ++ t.g ++ t.si ++ d,
        t.a ++ dotC ++ t.g ++ dotC ++ t.si ++ d,
        t.ai ++ t.g ++ d,
        t.ai ++ dotC ++ t.g ++ d,
        t.ai ++ t.init_sg ++ d])
    ++ [t.ai ++ t.g, t.ai ++ dotC ++ t.g, t.ai ++ t.init_sg,
      t.a ++ dotC ++ t.s ++ dotC ++ t.g, t.a ++ t.gi, t.a ++ dotC ++ t.gi]
  else [])
  ++ t.dates.flatMap (fun d => [t.g ++ dotC ++ d, t.g ++ dotC ++ t.si ++ dotC ++ d])
  ++ [t.s ++ dotC ++ t.g, t.g ++ dotC ++ t.s,
    t.s ++ dotC ++ t.init_sg, t.init_sg ++ dotC ++ t.s]
  ++ (if t.g2 ≠ [] then
    t.dates.flatMap (fun d =>
      [t.g2 ++ t.g ++ t.si ++ d,
        if t.a ≠ [] then t.ai ++ t.g2 ++ d else [],
        t.g2 ++ dotC ++ t.g ++ dotC ++ t.si])
    ++ [t.g2 ++ dotC ++ t.g ++ t.si, t.g2 ++ t.gi, t.g2 ++ dotC ++ t.gi,
      if t.a ≠ [] then t.ai ++ t.g2 else [],
      if t.a ≠ [] then t.ai ++ dotC ++ t.g2 else []]
    ++ (if t.a ≠ [] then
      [t.a ++ t.g2, t.a ++ dotC ++ t.g2]
      ++ t.dates.flatMap (fun d =>
        [t.a ++ t.g2 ++ d, t.a ++ dotC ++ t.g2 ++ d, t.a ++ t.g2 ++ t.si ++ d])
    else [])
  else [])
  ++ (if t.a2 ≠ [] then
    t.dates.flatMap (fun d => [t.a2 ++ d, t.a2 ++ dotC ++ d, t.a2 ++ t.g ++ d])
    ++ [t.a2 ++ dotC ++ t.g, t.a2 ++ dotC ++ t.s, t.a2 ++ t.init_sg]
  else [])

/-- The complete `combos` list of `generate_chinese`. -/
def chineseCombos (t : CnTokens) (full : Bool) : List (List Char) :=
  chineseBase t ++ (if full then chineseExtra t else [])

/-- aliasforge.py `generate_chinese`. -/
def generate_chinese (last first alias1 alias2 year dob : List Char)
    (full : Bool) : List (List Char) :=
  trim (chineseCombos (cnDerive last first alias1 alias2 year dob) full) MAX_LEN_CN

/-- The tokens derived at the top of aliasforge.py `generate_western`. -/
structure WTokens where
  f : List Char
  l : List Char
  m : List Char
  a : List Char
  a2 : List Char
  fi : List Char
  li : List Char
  mi : List Char
  ai : List Char
  init_fl : List Char
  init_fml : List Char
  ml : List Char
  yr4 : List Char
  yr2 : List Char
  dy2 : List Char
  md : List Char
  dates : List (List Char)
deriving Repr

/-- Token derivation of `generate_western`. -/
def wDerive (first last middle alias1 alias2 year dob : List Char) : WTokens :=
  let f := low (stripChars first)
  let l := low (stripChars last)
  let m := if middle ≠ [] then low (stripChars middle) else []
  let a := if alias1 ≠ [] then low (stripChars alias1) else []
  let a2 := if alias2 ≠ [] then low (stripChars alias2) else []
  let fi := ini f
  let li := ini l
  let mi := if m ≠ [] then ini m else []
  let ai := if a ≠ [] then ini a else []
  let init_fl := fi ++ li
  let init_fml := if mi ≠ [] then fi ++ mi ++ li else fi ++ li
  let ml := if m ≠ [] then m ++ l else []
  let d := parse_dates year dob
  ⟨f, l, m, a, a2, fi, li, mi, ai, init_fl, init_fml, ml,
    d.yr4, d.yr2, d.dy2, d.md, datesOf year dob⟩

/-- The two separators of the Python loop `for sep in ["", "."]`. -/
def seps : List (List Char) := [[], ['.']]

/-- Everything appended to `combos` in `generate_western` before the
`if full:` block, in order. -/
def westernBase (t : WTokens) : List (List Char) :=
  [t.f ++ t.l, t.l ++ t.f]
  ++ (if t.m ≠ [] then [t.f ++ t.mi ++ t.l, t.ml] else [])
  ++ [t.f ++ t.li, t.fi ++ t.l, t.f ++ dotC ++ t.li, t.fi ++ dotC ++ t.l,
    t.li ++ dotC ++ t.f]
  ++ (if t.m ≠ [] then
    [t.f ++ t.mi, t.f ++ dotC ++ t.mi, t.fi ++ dotC ++ t.m,
      t.fi ++ t.mi ++ dotC ++ t.l, t.f ++ t.mi ++ dotC ++ t.li]
  else [])
  ++ (if t.a ≠ [] then
    [t.a ++ t.f, t.f ++ t.a, t.a ++ t.l, t.l ++ t.a,
      t.a ++ t.fi, t.ai ++ t.f, t.a ++ t.li, t.ai ++ t.l,
      t.a ++ dotC ++ t.fi, t.ai ++ dotC ++ t.f,
      t.a ++ dotC ++ t.li, t.ai ++ dotC ++ t.l,
      t.li ++ dotC ++ t.a, t.fi ++ dotC ++ t.a]
    ++ (if t.m ≠ [] then [t.a ++ t.init_fml] else [])
  else [])
  ++ (if t.a ≠ [] then
    t.dates.flatMap (fun d => [t.a ++ d])
    ++ (if t.dy2 ≠ [] ∧ t.yr2 ≠ [] then [t.a ++ t.dy2 ++ t.yr2] else [])
  else [])
  ++ [t.init_fml, t.init_fml ++ dotC ++ t.l, t.f ++ dotC ++ t.init_fml]
  ++ t.dates.flatMap (fun d => [t.init_fml ++ d, t.init_fl ++ d])
  ++ (if t.a ≠ [] then [t.ai ++ t.init_fml] else [])
  ++ (if t.a ≠ [] then
    [t.a ++ t.init_fl, t.a ++ dotC ++ t.init_fl, t.init_fl ++ dotC ++ t.a]
    ++ t.dates.flatMap (fun d =>
      [t.a ++ t.init_fl ++ d, t.a ++ dotC ++ t.init_fl ++ d])
  else [])
  ++ (if t.a ≠ [] then
    t.dates.flatMap (fun d => [t.a ++ t.l ++ d, t.a ++ dotC ++ t.l ++ d])
  else [])
  ++ t.dates.flatMap (fun d => [t.f ++ d, t.l ++ d])
  ++ (if t.a ≠ [] then
    t.dates.flatMap (fun d =>
      [t.a ++ t.f ++ d, t.a ++ dotC ++ t.f ++ d, t.a ++ t.init_fml ++ d])
  else [])
  ++ (if t.md ≠ [] then
    (if t.m ≠ [] then [t.ml ++ t.md, t.ml ++ t.dy2] else [])
  else [])
  ++ [t.f ++ dotC ++ t.l, t.l ++ dotC ++ t.f]
  ++ (if t.m ≠ [] then
    [t.f ++ dotC ++ t.mi ++ dotC ++ t.l, t.fi ++ dotC ++ t.mi ++ dotC ++ t.l]
  else [])
  ++ (if t.a ≠ [] then
    [t.a ++ dotC ++ t.f, t.f ++ dotC ++ t.a, t.a ++ dotC ++ t.l,
      t.l ++ dotC ++ t.a, t.a ++ dotC ++ t.init_fml, t.init_fml ++ dotC ++ t.a]
    ++ t.dates.flatMap (fun d => [t.a ++ dotC ++ t.init_fml ++ d])
    ++ (if t.m ≠ [] then
      [t.a ++ t.f ++ t.mi ++ t.li, t.a ++ t.fi ++ t.li ++ t.f]
    else [])
  else [])
  ++ (if t.a ≠ [] then
    [t.f ++ t.a ++ t.l, t.f ++ dotC ++ t.a ++ dotC ++ t.l,
      t.f ++ t.a ++ t.li, t.f ++ dotC ++ t.a ++ t.li]
    ++ t.dates.flatMap (fun d =>
      [t.f ++ t.a ++ d, t.f ++ dotC ++ t.a ++ d, t.f ++ t.a ++ t.li ++ d])
    ++ [t.f ++ t.ai, t.f ++ dotC ++ t.ai]
    ++ t.dates.flatMap (fun d => [t.f ++ t.ai ++ d, t.f ++ dotC ++ t.ai ++ d])
  else [])
  ++ (if t.a2 ≠ [] then
    seps.flatMap (fun sep =>
      [t.a2 ++ sep ++ t.f, t.a2 ++ sep ++ t.l, t.f ++ sep ++ t.a2,
        if t.a ≠ [] then t.a2 ++ sep ++ t.a else [],
        if t.a ≠ [] then t.a ++ sep ++ t.a2 else [],
        t.a2 ++ sep ++ t.init_fml])
  else [])

/-- The `if full:` block of `generate_western`, in order. -/
def westernExtra (t : WTokens) : List (List Char) :=
  (([t.f, t.l, t.a, t.a2, t.init_fml, t.init_fl, t.ml].filter
      (fun x => x ≠ [])).flatMap
    (fun nm => t.dates.flatMap (fun d => [nm ++ d, nm ++ dotC ++ d])))
  ++ (if t.a2 ≠ [] then
    seps.flatMap (fun sep =>
      [t.a2 ++ sep ++ t.f, t.a2 ++ sep ++ t.l, t.f ++ sep ++ t.a2,
        if t.a ≠ [] then t.a2 ++ sep ++ t.a else [],
        if t.a ≠ [] then t.a ++ sep ++ t.a2 else [],
        t.a2 ++ sep ++ t.init_fml])
    ++ t.dates.flatMap (fun d => [t.a2 ++ d, t.a2 ++ dotC ++ d])
  else [])
  ++ (if t.m ≠ [] then
    [t.f ++ dotC ++ t.mi ++ t.li, t.fi ++ t.mi ++ dotC ++ t.l]
  else [])
  ++ (if t.a ≠ [] then
    [t.ai ++ dotC ++ t.f ++ t.l, t.a ++ dotC ++ t.f ++ t.l,
      t.ai ++ t.f ++ dotC ++ t.l]
    ++ t.dates.flatMap (fun d =>
      [t.f ++ dotC ++ t.a ++ dotC ++ d, t.f ++ t.a ++ t.init_fl ++ d])
  else [])
  ++ (if t.a ≠ [] ∧ t.m ≠ [] then
    [if t.md ≠ [] then t.a ++ dotC ++ t.init_fml ++ t.md else []]
  else [])

/-- The complete `combos` list of `generate_western`. -/
def westernCombos (t : WTokens) (full : Bool) : List (List Char) :=
  westernBase t ++ (if full then westernExtra t else [])

/-- aliasforge.py `generate_western`. -/
def generate_western (first last middle alias1 alias2 year dob : List Char)
    (full : Bool) : List (List Char) :=
  trim (westernCombos (wDerive first last middle alias1 alias2 year dob) full)
    MAX_LEN_EN



/-- Spec-side: drop duplicates keeping the first occurrence, `seen` being the
elements already kept. -/
def firstDedupGo (seen : List (List Char)) : List (List Char) → List (List Char)
  | [] => []
  | x :: xs =>
    if x ∈ seen then firstDedupGo seen xs
    else x :: firstDedupGo (x :: seen) xs

/-- Spec-side: drop exact duplicates, keeping the first occurrence of each
element. -/
def firstDedup (l : List (List Char)) : List (List Char) :=
  firstDedupGo [] l

/-- A lowercase ASCII letter. -/
def isNameChar (c : Char) : Bool :=
  decide (97 ≤ c.toNat) && decide (c.toNat ≤ 122)

/-- An ASCII digit. -/
def isDigitCh (c : Char) : Bool :=
  decide (48 ≤ c.toNat) && decide (c.toNat ≤ 57)

/-- A "segment": a non-empty dot-free string whose first and last characters
are not whitespace (the shape of every atomic token interleaved with dot
separators in the generators). -/
@[reducible] def SegP (t : List Char) : Prop :=
  t ≠ [] ∧ (∀ c ∈ t, c ≠ '.') ∧
    (∀ c, t.head? = some c → c.isWhitespace = false) ∧
    (∀ c, t.getLast? = some c → c.isWhitespace = false)

/-- Strings built from segments glued directly or by single dots. -/
inductive Nice : List Char → Prop where
  | seg (t : List Char) : SegP t → Nice t
  | dot (x y : List Char) : Nice x → Nice y → Nice (x ++ '.' :: y)
  | app (x y : List Char) : Nice x → Nice y → Nice (x ++ y)

/-- Dot-well-formedness of a username: it does not begin with a dot, does not
end with a dot, and has no two consecutive dots. -/
def dotWF (x : List Char) : Prop :=
  x.head? ≠ some '.' ∧ x.getLast? ≠ some '.' ∧ ¬ List.IsInfix ['.', '.'] x

/-- The invariant carried by `Nice` strings. -/
def NiceInv (x : List Char) : Prop :=
  x ≠ [] ∧
    (∀ c, x.head? = some c → c ≠ '.' ∧ c.isWhitespace = false) ∧
    (∀ c, x.getLast? = some c → c ≠ '.' ∧ c.isWhitespace = false) ∧
    ¬ List.IsInfix ['.', '.'] x

/-- Every concatenation of tokens that stands immediately before a date token
in some candidate emitted by `generate_chinese` (default or full mode), other
than the ones that cannot equal the bare surname for length reasons. -/
def cnDatePrefixes (t : CnTokens) : List (List Char) :=
  [t.a, t.g, t.g2, t.a2,
    t.a ++ t.g, t.a ++ t.init_sg, t.g2 ++ t.si, t.g2 ++ t.g,
    t.g2 ++ t.init_sg, t.g ++ t.si, t.init_sg, t.a2 ++ t.g,
    t.a ++ t.g ++ t.si, t.ai ++ t.g, t.ai ++ t.init_sg,
    t.g2 ++ t.g ++ t.si, t.ai ++ t.g2, t.a ++ t.g2, t.a ++ t.g2 ++ t.si]

/-- A string consisting only of lowercase ASCII letters. -/
@[reducible] def AT (l : List Char) : Prop :=
  ∀ c ∈ l, isNameChar c = true

/-- A string consisting only of ASCII digits. -/
@[reducible] def DT (l : List Char) : Prop :=
  ∀ c ∈ l, isDigitCh c = true

/-- A string with no whitespace characters. -/
@[reducible] def noWs (l : List Char) : Prop :=
  ∀ c ∈ l, c.isWhitespace = false

/-- Well-typedness hypotheses for the derived Chinese tokens under which the
"no bare surname+date" policy is provable: alphabetic name tokens, a
non-empty surname, non-empty given initials, digit-only date tokens, and no
date-carrying prefix equal to the surname. -/
structure CnSep (t : CnTokens) : Prop where
  hs_ne : t.s ≠ []
  hs : AT t.s
  ha : AT t.a
  ha2 : AT t.a2
  hg : AT t.g
  hg2 : AT t.g2
  hsi : AT t.si
  hgi : AT t.gi
  hgi_ne : t.gi ≠ []
  hai : AT t.ai
  hisg : AT t.init_sg
  hias : AT t.init_as
  hiasg : AT t.init_asg
  hdy2 : DT t.dy2
  hyr2 : DT t.yr2
  hdates : ∀ dt ∈ t.dates, DT dt ∧ dt ≠ []
  hpre : ∀ p ∈ cnDatePrefixes t, p ≠ t.s

/-- Segment facts for the derived Chinese tokens, with token presence gates
matching the generator's own gates. -/
structure CnDot (t : CnTokens) : Prop where
  s_seg : SegP t.s
  a_seg : t.a ≠ [] → SegP t.a
  a2_seg : t.a2 ≠ [] → SegP t.a2
  g_seg : SegP t.g
  g2_seg : t.g2 ≠ [] → SegP t.g2
  si_seg : SegP t.si
  gi_seg : SegP t.gi
  ai_seg : t.a ≠ [] → SegP t.ai
  isg_seg : SegP t.init_sg
  ias_seg : t.a ≠ [] → SegP t.init_as
  iasg_seg : t.a ≠ [] → SegP t.init_asg
  dy2_seg : t.dy2 ≠ [] → SegP t.dy2
  yr2_seg : t.yr2 ≠ [] → SegP t.yr2
  dates_seg : ∀ d ∈ t.dates, SegP d

/-- Segment facts for the derived Western tokens, with token presence gates
matching the generator's own gates. -/
structure WDot (t : WTokens) : Prop where
  f_seg : SegP t.f
  l_seg : SegP t.l
  m_seg : t.m ≠ [] → SegP t.m
  a_seg : t.a ≠ [] → SegP t.a
  a2_seg : t.a2 ≠ [] → SegP t.a2
  fi_seg : SegP t.fi
  li_seg : SegP t.li
  mi_seg : t.m ≠ [] → SegP t.mi
  ai_seg : t.a ≠ [] → SegP t.ai
  ifl_seg : SegP t.init_fl
  ifml_seg : SegP t.init_fml
  ml_seg : t.m ≠ [] → SegP t.ml
  ml_self : t.ml ≠ [] → SegP t.ml
  md_seg : t.md ≠ [] → SegP t.md
  mddy2_seg : t.md ≠ [] → SegP t.dy2
  dy2_seg : t.dy2 ≠ [] → SegP t.dy2
  yr2_seg : t.yr2 ≠ [] → SegP t.yr2
  dates_seg : ∀ d ∈ t.dates, SegP d

/-- The keep-condition of `trim` as a Boolean predicate on an
already-stripped string. -/
def keepP (maxlen : Nat) (y : List Char) : Bool :=
  decide (y ≠ []) && decide (MIN_LEN ≤ y.length) && decide (y.length ≤ maxlen)

theorem trimGo_eq_firstDedupGo (maxlen : Nat) (lst seen : List (List Char)) :
    trimGo maxlen seen lst =
      firstDedupGo seen ((lst.map stripChars).filter (keepP maxlen)) := by
  induction lst generalizing seen with
  | nil => rfl
  | cons x xs ih =>
    by_cases hk : keepP maxlen (stripChars x) = true
    · have hk' : stripChars x ≠ [] ∧ MIN_LEN ≤ (stripChars x).length ∧
          (stripChars x).length ≤ maxlen := by
        simpa [keepP, and_assoc] using hk
      by_cases hseen : stripChars x ∈ seen
      · simp [trimGo, List.filter_cons, hk, firstDedupGo, hseen, hk'.1, hk'.2.1,
          hk'.2.2, ih]
      · simp [trimGo, List.filter_cons, hk, firstDedupGo, hseen, hk'.1, hk'.2.1,
          hk'.2.2, ih]
    · have : ¬(stripChars x ≠ [] ∧ MIN_LEN ≤ (stripChars x).length ∧
          (stripChars x).length ≤ maxlen ∧ stripChars x ∉ seen) := by
        intro hcon
        exact hk (by simp [keepP, hcon.1, hcon.2.1, hcon.2.2.1])
      simp [trimGo, List.filter_cons, hk, this, ih]

theorem firstDedupGo_sublist (l seen : List (List Char)) :
    (firstDedupGo seen l).Sublist l := by
  induction l generalizing seen with
  | nil => simp [firstDedupGo]
  | cons x xs ih =>
    by_cases hx : x ∈ seen
    · simp only [firstDedupGo, if_pos hx]
      exact (ih seen).trans (List.sublist_cons_self x xs)
    · simp only [firstDedupGo, if_neg hx]
      exact (ih (x :: seen)).cons₂ x

theorem trimGo_mem {maxlen : Nat} {lst seen x} (h : x ∈ trimGo maxlen seen lst) :
    x ≠ [] ∧ MIN_LEN ≤ x.length ∧ x.length ≤ maxlen ∧ x ∉ seen := by
  induction lst generalizing seen with
  | nil => simp [trimGo] at h
  | cons y ys ih =>
    by_cases hc : stripChars y ≠ [] ∧ MIN_LEN ≤ (stripChars y).length ∧
        (stripChars y).length ≤ maxlen ∧ stripChars y ∉ seen
    · rw [trimGo, if_pos hc] at h
      rcases List.mem_cons.mp h with rfl | h2
      · exact ⟨hc.1, hc.2.1, hc.2.2.1, hc.2.2.2⟩
      · have := ih h2
        exact ⟨this.1, this.2.1, this.2.2.1,
          fun hs => this.2.2.2 (List.mem_cons_of_mem _ hs)⟩
    · rw [trimGo, if_neg hc] at h
      exact ih h

theorem trimGo_nodup (maxlen : Nat) (lst : List (List Char)) :
    ∀ seen, (trimGo maxlen seen lst).Nodup := by
  induction lst with
  | nil => intro seen; simp [trimGo]
  | cons y ys ih =>
    intro seen
    by_cases hc : stripChars y ≠ [] ∧ MIN_LEN ≤ (stripChars y).length ∧
        (stripChars y).length ≤ maxlen ∧ stripChars y ∉ seen
    · rw [trimGo, if_pos hc]
      refine List.nodup_cons.mpr ⟨fun hmem => ?_, ih _⟩
      exact (trimGo_mem hmem).2.2.2 (List.mem_cons_self _ _)
    · rw [trimGo, if_neg hc]
      exact ih _

theorem trimGo_append_mem {maxlen : Nat} {l1 seen x} (l2 : List (List Char))
    (h : x ∈ trimGo maxlen seen l1) : x ∈ trimGo maxlen seen (l1 ++ l2) := by
  induction l1 generalizing seen with
  | nil => simp [trimGo] at h
  | cons y ys ih =>
    by_cases hc : stripChars y ≠ [] ∧ MIN_LEN ≤ (stripChars y).length ∧
        (stripChars y).length ≤ maxlen ∧ stripChars y ∉ seen
    · rw [trimGo, if_pos hc] at h
      rw [List.cons_append, trimGo, if_pos hc]
      rcases List.mem_cons.mp h with rfl | h2
      · exact List.mem_cons_self _ _
      · exact List.mem_cons_of_mem _ (ih h2)
    · rw [trimGo, if_neg hc] at h
      rw [List.cons_append, trimGo, if_neg hc]
      exact ih h

theorem parse_dates_of_three (year : List Char) {dob p1 p2 p3 : List Char}
    (h : splitOnChar '/' (replaceDash (stripChars dob)) = [p1, p2, p3]) :
    parse_dates year dob =
      ⟨(if takeRight (stripChars year) 4 = [] then p1
          else takeRight (stripChars year) 4),
        (if takeRight (stripChars year) 4 = [] then takeRight p1 2
          else takeRight (takeRight (stripChars year) 4) 2),
        takeRight (zfill2 p3) 2,
        zfill2 p2 ++ zfill2 p3⟩ := by
  have hdob : dob ≠ [] := by
    rintro rfl
    simp [stripChars, replaceDash, splitOnChar, splitPred] at h
  by_cases hy : year = []
  · subst hy
    have h0 : takeRight (stripChars ([] : List Char)) 4 = [] := rfl
    simp only [parse_dates, ne_eq, not_true_eq_false, ite_false,
      if_pos hdob, h, h0]
    simp
  · simp only [parse_dates, ne_eq, hy, not_false_eq_true, ite_true,
      if_pos hdob, h]

theorem parse_dates_not_three (year : List Char) {dob : List Char}
    (h : (splitOnChar '/' (replaceDash (stripChars dob))).length ≠ 3) :
    parse_dates year dob =
      ⟨takeRight (stripChars year) 4,
        takeRight (takeRight (stripChars year) 4) 2, [], []⟩ := by
  have hys : ∀ y : List Char,
      (if year ≠ [] then takeRight (stripChars year) 4 else []) =
        takeRight (stripChars year) 4 ∧
      (if year ≠ [] then takeRight (if year ≠ [] then
          takeRight (stripChars year) 4 else []) 2 else []) =
        takeRight (takeRight (stripChars year) 4) 2 := by
    intro _
    by_cases hy : year = []
    · subst hy; simp [stripChars, takeRight]
    · simp [hy]
  obtain ⟨h1, h2⟩ := hys []
  by_cases hdob : dob = []
  · subst hdob
    simp only [parse_dates, ne_eq, not_true_eq_false, ite_false, if_neg]
    exact congrArg₂ (fun u v => DateTokens.mk u v [] []) h1 h2
  · rcases hsp : splitOnChar '/' (replaceDash (stripChars dob)) with
      _ | ⟨q1, _ | ⟨q2, _ | ⟨q3, _ | ⟨q4, qs⟩⟩⟩⟩ <;>
      rw [hsp] at h <;> simp only [List.length] at h
    · simp only [parse_dates, if_pos hdob, hsp]
      exact congrArg₂ (fun u v => DateTokens.mk u v [] []) h1 h2
    · simp only [parse_dates, if_pos hdob, hsp]
      exact congrArg₂ (fun u v => DateTokens.mk u v [] []) h1 h2
    · simp only [parse_dates, if_pos hdob, hsp]
      exact congrArg₂ (fun u v => DateTokens.mk u v [] []) h1 h2
    · omega
    · simp only [parse_dates, if_pos hdob, hsp]
      exact congrArg₂ (fun u v => DateTokens.mk u v [] []) h1 h2

theorem takeRight_ne_nil {l : List Char} (h : l ≠ []) {n : Nat} (hn : 0 < n) :
    takeRight l n ≠ [] := by
  have hl : 0 < l.length := List.length_pos.mpr h
  intro hc
  have := congrArg List.length hc
  simp only [takeRight, List.length_drop, List.length_nil] at this
  omega

theorem zfill2_length (l : List Char) : 2 ≤ (zfill2 l).length := by
  match l with
  | [] => simp [zfill2]
  | [c] =>
    simp only [zfill2]
    split <;> simp
  | a :: b :: rest => simp [zfill2]

/-- C1: `generate_western(first="Charlie", middle="Monroe", last="Brown",
dob="1990/03/22")` — contrary to the claim, `"cmb90"` (length 5, below the
minimum length 6) is NOT in the result. -/
theorem western_scenario2_cmb90_missing :
    ("cmb90".data) ∉ generate_western ("Charlie".data) ("Brown".data)
      ("Monroe".data) [] [] [] ("1990/03/22".data) false := by decide

/-- C1 (amended): the same scenario with `"cmb90"` dropped from the expected
inclusions: the result includes `charliebrown`, `browncharlie`,
`charlie.brown`, `cmb0322`, `charliem`, and excludes `charlie03` and `cb`. -/
theorem western_scenario2_amended :
    (("charliebrown".data) ∈ generate_western ("Charlie".data) ("Brown".data)
      ("Monroe".data) [] [] [] ("1990/03/22".data) false) ∧
    (("browncharlie".data) ∈ generate_western ("Charlie".data) ("Brown".data)
      ("Monroe".data) [] [] [] ("1990/03/22".data) false) ∧
    (("charlie.brown".data) ∈ generate_western ("Charlie".data) ("Brown".data)
      ("Monroe".data) [] [] [] ("1990/03/22".data) false) ∧
    (("cmb0322".data) ∈ generate_western ("Charlie".data) ("Brown".data)
      ("Monroe".data) [] [] [] ("1990/03/22".data) false) ∧
    (("charliem".data) ∈ generate_western ("Charlie".data) ("Brown".data)
      ("Monroe".data) [] [] [] ("1990/03/22".data) false) ∧
    (("charlie03".data) ∉ generate_western ("Charlie".data) ("Brown".data)
      ("Monroe".data) [] [] [] ("1990/03/22".data) false) ∧
    (("cb".data) ∉ generate_western ("Charlie".data) ("Brown".data)
      ("Monroe".data) [] [] [] ("1990/03/22".data) false) := by decide

/-- C2: `generate_chinese(last="Chan", first="Tai Man", alias="Tommy",
dob="2001/10/15")` includes the ten listed candidates and excludes
`tommy10`, `ctm` and `chan2001`. -/
theorem chinese_scenario1 :
    (("tommy2001".data) ∈ generate_chinese ("Chan".data) ("Tai Man".data)
      ("Tommy".data) [] [] ("2001/10/15".data) false) ∧
    (("tommy01".data) ∈ generate_chinese ("Chan".data) ("Tai Man".data)
      ("Tommy".data) [] [] ("2001/10/15".data) false) ∧
    (("tommy1015".data) ∈ generate_chinese ("Chan".data) ("Tai Man".data)
      ("Tommy".data) [] [] ("2001/10/15".data) false) ∧
    (("tommy15".data) ∈ generate_chinese ("Chan".data) ("Tai Man".data)
      ("Tommy".data) [] [] ("2001/10/15".data) false) ∧
    (("tommy1501".data) ∈ generate_chinese ("Chan".data) ("Tai Man".data)
      ("Tommy".data) [] [] ("2001/10/15".data) false) ∧
    (("tommyctm".data) ∈ generate_chinese ("Chan".data) ("Tai Man".data)
      ("Tommy".data) [] [] ("2001/10/15".data) false) ∧
    (("tommy.ctm".data) ∈ generate_chinese ("Chan".data) ("Tai Man".data)
      ("Tommy".data) [] [] ("2001/10/15".data) false) ∧
    (("manchan".data) ∈ generate_chinese ("Chan".data) ("Tai Man".data)
      ("Tommy".data) [] [] ("2001/10/15".data) false) ∧
    (("taimanc".data) ∈ generate_chinese ("Chan".data) ("Tai Man".data)
      ("Tommy".data) [] [] ("2001/10/15".data) false) ∧
    (("ctm2001".data) ∈ generate_chinese ("Chan".data) ("Tai Man".data)
      ("Tommy".data) [] [] ("2001/10/15".data) false) ∧
    (("tommy10".data) ∉ generate_chinese ("Chan".data) ("Tai Man".data)
      ("Tommy".data) [] [] ("2001/10/15".data) false) ∧
    (("ctm".data) ∉ generate_chinese ("Chan".data) ("Tai Man".data)
      ("Tommy".data) [] [] ("2001/10/15".data) false) ∧
    (("chan2001".data) ∉ generate_chinese ("Chan".data) ("Tai Man".data)
      ("Tommy".data) [] [] ("2001/10/15".data) false) := by decide

/-- C3: `trim` returns exactly the whitespace-stripped entries whose length
lies in `[MIN_LEN, maxlen]` (empty strings dropped), with exact duplicates
dropped keeping the first occurrence, in the input's first-occurrence order
(a sublist of the stripped input). -/
theorem trim_filter_dedupe_spec (lst : List (List Char)) (maxlen : Nat) :
    trim lst maxlen =
      firstDedup ((lst.map stripChars).filter (keepP maxlen)) ∧
    (trim lst maxlen).Sublist (lst.map stripChars) := by
  refine ⟨trimGo_eq_firstDedupGo maxlen lst [], ?_⟩
  have h := trimGo_eq_firstDedupGo maxlen lst []
  rw [trim, h]
  exact (firstDedupGo_sublist _ _).trans (List.filter_sublist _)

/-- C4: every candidate returned by `generate_chinese` has length between 6
and 16, every candidate returned by `generate_western` has length between 6
and 18, and neither returned sequence repeats an element. -/
theorem generate_length_nodup
    (last first middle alias1 alias2 year dob : List Char) (full : Bool) :
    (∀ x ∈ generate_chinese last first alias1 alias2 year dob full,
      6 ≤ x.length ∧ x.length ≤ 16) ∧
    (generate_chinese last first alias1 alias2 year dob full).Nodup ∧
    (∀ x ∈ generate_western first last middle alias1 alias2 year dob full,
      6 ≤ x.length ∧ x.length ≤ 18) ∧
    (generate_western first last middle alias1 alias2 year dob full).Nodup := by
  refine ⟨fun x hx => ?_, trimGo_nodup _ _ _, fun x hx => ?_, trimGo_nodup _ _ _⟩
  · exact ⟨(trimGo_mem hx).2.1, (trimGo_mem hx).2.2.1⟩
  · exact ⟨(trimGo_mem hx).2.1, (trimGo_mem hx).2.2.1⟩

theorem generate_length_nodup_witness :
    6 ≤ ("tommy2001".data : List Char).length ∧
      ("tommy2001".data : List Char).length ≤ 16 :=
  (generate_length_nodup ("Chan".data) ("Tai Man".data) [] ("Tommy".data) []
    [] ("2001/10/15".data) false).1 _ (by decide)

/-- C7: every candidate produced in default mode is also produced in full
mode, for both generators. -/
theorem full_mode_superset
    (last first middle alias1 alias2 year dob : List Char) :
    (∀ x ∈ generate_chinese last first alias1 alias2 year dob false,
      x ∈ generate_chinese last first alias1 alias2 year dob true) ∧
    (∀ x ∈ generate_western first last middle alias1 alias2 year dob false,
      x ∈ generate_western first last middle alias1 alias2 year dob true) := by
  constructor
  · intro x hx
    have h0 : chineseCombos (cnDerive last first alias1 alias2 year dob) false
        = chineseBase (cnDerive last first alias1 alias2 year dob) := by
      simp [chineseCombos]
    have h1 : chineseCombos (cnDerive last first alias1 alias2 year dob) true
        = chineseBase (cnDerive last first alias1 alias2 year dob)
          ++ chineseExtra (cnDerive last first alias1 alias2 year dob) := by
      simp [chineseCombos]
    rw [generate_chinese, h0] at hx
    rw [generate_chinese, h1]
    exact trimGo_append_mem _ hx
  · intro x hx
    have h0 : westernCombos (wDerive first last middle alias1 alias2 year dob)
        false = westernBase (wDerive first last middle alias1 alias2 year dob) := by
      simp [westernCombos]
    have h1 : westernCombos (wDerive first last middle alias1 alias2 year dob)
        true = westernBase (wDerive first last middle alias1 alias2 year dob)
          ++ westernExtra (wDerive first last middle alias1 alias2 year dob) := by
      simp [westernCombos]
    rw [generate_western, h0] at hx
    rw [generate_western, h1]
    exact trimGo_append_mem _ hx

theorem full_mode_superset_witness :
    ("tommy2001".data) ∈ generate_chinese ("Chan".data) ("Tai Man".data)
      ("Tommy".data) [] [] ("2001/10/15".data) true :=
  (full_mode_superset ("Chan".data) ("Tai Man".data) [] ("Tommy".data) []
    [] ("2001/10/15".data)).1 _ (by decide)

/-- C5 counterexample: for the non-empty (whitespace-only) year `" "` and
`dob = "2001/10/15"`, `yr4` is NOT the last 4 characters of the trimmed year
(the dob year part overrides the empty trimmed year). -/
theorem parse_dates_whitespace_year_counterexample :
    ((" ".data : List Char) ≠ []) ∧
      (parse_dates (" ".data) ("2001/10/15".data)).yr4 ≠
        takeRight (stripChars (" ".data)) 4 := by decide

/-- C5 (amended): with "year is non-empty" strengthened to "the trimmed year
is non-empty": then `yr4` is the last 4 characters of the trimmed year and
`yr2` its last 2; and when dob splits into exactly 3 parts, `yr4`/`yr2` come
from the dob year part exactly when the trimmed year is empty, the month and
day are zero-padded to width 2, `dy2` is the padded day's last 2 characters
and `md` is padded month ++ padded day. -/
theorem parse_dates_spec_amended (year dob : List Char) :
    (stripChars year ≠ [] →
      (parse_dates year dob).yr4 = takeRight (stripChars year) 4 ∧
      (parse_dates year dob).yr2 =
        takeRight (takeRight (stripChars year) 4) 2) ∧
    (∀ p1 p2 p3,
      splitOnChar '/' (replaceDash (stripChars dob)) = [p1, p2, p3] →
      (stripChars year = [] →
        (parse_dates year dob).yr4 = p1 ∧
        (parse_dates year dob).yr2 = takeRight p1 2) ∧
      (parse_dates year dob).dy2 = takeRight (zfill2 p3) 2 ∧
      (parse_dates year dob).md = zfill2 p2 ++ zfill2 p3) := by
  constructor
  · intro hy
    have hne : takeRight (stripChars year) 4 ≠ [] :=
      takeRight_ne_nil hy (by omega)
    by_cases h3 : ∃ p1 p2 p3,
        splitOnChar '/' (replaceDash (stripChars dob)) = [p1, p2, p3]
    · obtain ⟨p1, p2, p3, h⟩ := h3
      rw [parse_dates_of_three year h]
      simp [hne]
    · have hlen : (splitOnChar '/' (replaceDash (stripChars dob))).length ≠ 3 := by
        intro hl
        exact h3 (List.length_eq_three.mp hl)
      rw [parse_dates_not_three year hlen]
      exact ⟨rfl, rfl⟩
  · intro p1 p2 p3 h
    rw [parse_dates_of_three year h]
    refine ⟨fun hy0 => ?_, rfl, rfl⟩
    have h0 : takeRight (stripChars year) 4 = [] := by
      rw [hy0]; rfl
    simp [h0]

theorem parse_dates_spec_amended_witness :
    (parse_dates ("1990".data) ("2001/10/15".data)).yr4 =
      takeRight (stripChars ("1990".data)) 4 ∧
    (parse_dates ("1990".data) ("2001/10/15".data)).md =
      zfill2 ("10".data) ++ zfill2 ("15".data) :=
  ⟨((parse_dates_spec_amended ("1990".data) ("2001/10/15".data)).1
      (by decide)).1,
    ((parse_dates_spec_amended ("1990".data) ("2001/10/15".data)).2
      ("2001".data) ("10".data) ("15".data) (by decide)).2.2⟩

/-- C6: no component of the `parse_dates` result is the month-only token:
`md` is padded-month ++ padded-day and in particular differs from the padded
month, `dy2` derives from the day, `yr4`/`yr2` from the year (input year or
dob year part); and the date-suffix list of both generators is exactly the
non-empty members of `[yr4, yr2, md, dy2]`. -/
theorem parse_dates_no_month_only (year dob p1 p2 p3 : List Char)
    (h : splitOnChar '/' (replaceDash (stripChars dob)) = [p1, p2, p3]) :
    (parse_dates year dob).md = zfill2 p2 ++ zfill2 p3 ∧
    (parse_dates year dob).md ≠ zfill2 p2 ∧
    (parse_dates year dob).dy2 = takeRight (zfill2 p3) 2 ∧
    (parse_dates year dob).yr4 =
      (if takeRight (stripChars year) 4 = [] then p1
        else takeRight (stripChars year) 4) ∧
    (parse_dates year dob).yr2 = takeRight ((parse_dates year dob).yr4) 2 ∧
    datesOf year dob =
      [(parse_dates year dob).yr4, (parse_dates year dob).yr2,
        (parse_dates year dob).md, (parse_dates year dob).dy2].filter
        (fun x => x ≠ []) ∧
    (∀ last first a1 a2,
      (cnDerive last first a1 a2 year dob).dates = datesOf year dob) ∧
    (∀ first last middle a1 a2,
      (wDerive first last middle a1 a2 year dob).dates = datesOf year dob) := by
  have he := parse_dates_of_three year h
  refine ⟨by rw [he], ?_, by rw [he], by rw [he], ?_, rfl,
    fun _ _ _ _ => rfl, fun _ _ _ _ _ => rfl⟩
  · rw [he]
    intro hc
    have hlen := congrArg List.length hc
    have h3 := zfill2_length p3
    simp only [List.length_append] at hlen
    omega
  · rw [he]
    by_cases h0 : takeRight (stripChars year) 4 = [] <;> simp [h0]

theorem parse_dates_no_month_only_witness :
    (parse_dates [] ("2001/10/15".data)).md ≠ zfill2 ("10".data) :=
  (parse_dates_no_month_only [] ("2001/10/15".data) ("2001".data)
    ("10".data) ("15".data) (by decide)).2.1

/-- C8: a dob that does not split into exactly 3 parts contributes nothing:
`dy2` and `md` stay empty, `yr4`/`yr2` still come from the (trimmed) year,
and the generators' date-suffix list contains only year-derived tokens.
(The embedding is total, matching the absence of exceptions.) -/
theorem malformed_dob_degrades_gracefully (year dob : List Char)
    (h : (splitOnChar '/' (replaceDash (stripChars dob))).length ≠ 3) :
    parse_dates year dob =
      ⟨takeRight (stripChars year) 4,
        takeRight (takeRight (stripChars year) 4) 2, [], []⟩ ∧
    (year ≠ [] →
      (parse_dates year dob).yr4 = takeRight (stripChars year) 4 ∧
      (parse_dates year dob).yr2 =
        takeRight (takeRight (stripChars year) 4) 2) ∧
    datesOf year dob =
      [takeRight (stripChars year) 4,
        takeRight (takeRight (stripChars year) 4) 2].filter
        (fun x => x ≠ []) := by
  have he := parse_dates_not_three year h
  refine ⟨he, fun _ => by rw [he]; exact ⟨rfl, rfl⟩, ?_⟩
  rw [datesOf, he]
  simp [List.filter]

theorem malformed_dob_degrades_gracefully_witness :
    parse_dates ("1984".data) ("oops".data) =
      ⟨takeRight (stripChars ("1984".data)) 4,
        takeRight (takeRight (stripChars ("1984".data)) 4) 2, [], []⟩ :=
  (malformed_dob_degrades_gracefully ("1984".data) ("oops".data)
    (by decide)).1

theorem nameChar_not_digit {c : Char} (h : isNameChar c = true) :
    isDigitCh c = false := by
  simp only [isNameChar, Bool.and_eq_true, decide_eq_true_eq] at h
  simp only [isDigitCh, Bool.and_eq_true, decide_eq_true_eq, not_and,
    Bool.and_eq_false_iff, decide_eq_false_iff_not]
  omega

theorem nameChar_not_ws {c : Char} (h : isNameChar c = true) :
    c.isWhitespace = false := by
  simp only [isNameChar, Bool.and_eq_true, decide_eq_true_eq] at h
  simp only [Char.isWhitespace]
  have h9 : c ≠ ' ' := by
    intro hc; subst hc; simp [Char.toNat, UInt32.size] at h
  have h10 : c ≠ '\t' := by
    intro hc; subst hc; simp [Char.toNat, UInt32.size] at h
  have h11 : c ≠ '\r' := by
    intro hc; subst hc; simp [Char.toNat, UInt32.size] at h
  have h12 : c ≠ '\n' := by
    intro hc; subst hc; simp [Char.toNat, UInt32.size] at h
  simp [h9, h10, h11, h12]

theorem digitCh_not_ws {c : Char} (h : isDigitCh c = true) :
    c.isWhitespace = false := by
  simp only [isDigitCh, Bool.and_eq_true, decide_eq_true_eq] at h
  simp only [Char.isWhitespace]
  have h9 : c ≠ ' ' := by
    intro hc; subst hc; simp [Char.toNat, UInt32.size] at h
  have h10 : c ≠ '\t' := by
    intro hc; subst hc; simp [Char.toNat, UInt32.size] at h
  have h11 : c ≠ '\r' := by
    intro hc; subst hc; simp [Char.toNat, UInt32.size] at h
  have h12 : c ≠ '\n' := by
    intro hc; subst hc; simp [Char.toNat, UInt32.size] at h
  simp [h9, h10, h11, h12]

theorem nameChar_ne_dot {c : Char} (h : isNameChar c = true) : c ≠ '.' := by
  intro hc; subst hc
  simp [isNameChar, Char.toNat, UInt32.size] at h

theorem digitCh_ne_dot {c : Char} (h : isDigitCh c = true) : c ≠ '.' := by
  intro hc; subst hc
  simp [isDigitCh, Char.toNat, UInt32.size] at h

theorem noWs_of_AT {l : List Char} (h : AT l) : noWs l :=
  fun c hc => nameChar_not_ws (h c hc)

theorem noWs_of_DT {l : List Char} (h : DT l) : noWs l :=
  fun c hc => digitCh_not_ws (h c hc)

theorem noWs_append {u v : List Char} (hu : noWs u) (hv : noWs v) :
    noWs (u ++ v) := by
  intro c hc
  rcases List.mem_append.mp hc with h | h
  · exact hu c h
  · exact hv c h

theorem noWs_dot_cons {v : List Char} (hv : noWs v) : noWs ('.' :: v) := by
  intro c hc
  rcases List.mem_cons.mp hc with rfl | h
  · decide
  · exact hv c h

theorem AT_append {u v : List Char} (hu : AT u) (hv : AT v) : AT (u ++ v) := by
  intro c hc
  rcases List.mem_append.mp hc with h | h
  · exact hu c h
  · exact hv c h

theorem DT_append {u v : List Char} (hu : DT u) (hv : DT v) : DT (u ++ v) := by
  intro c hc
  rcases List.mem_append.mp hc with h | h
  · exact hu c h
  · exact hv c h

theorem stripChars_of_noWs {l : List Char} (h : noWs l) : stripChars l = l := by
  have hdrop : ∀ m : List Char, noWs m → m.dropWhile Char.isWhitespace = m := by
    intro m hm
    cases m with
    | nil => rfl
    | cons c cs =>
      rw [List.dropWhile_cons_of_neg]
      simp [hm c (List.mem_cons_self c cs)]
  rw [stripChars, hdrop _ h, hdrop, List.reverse_reverse]
  intro c hc
  exact h c (List.mem_reverse.mp hc)

theorem digit_not_name {c : Char} (h : isDigitCh c = true) :
    isNameChar c = false := by
  simp only [isDigitCh, Bool.and_eq_true, decide_eq_true_eq] at h
  simp only [isNameChar, Bool.and_eq_false_iff, decide_eq_false_iff_not]
  omega

theorem takeWhile_AT_append {p D : List Char} (hp : AT p) (hD : DT D)
    (hDne : D ≠ []) : (p ++ D).takeWhile isNameChar = p := by
  induction p with
  | nil =>
    cases D with
    | nil => exact absurd rfl hDne
    | cons c cs =>
      simp only [List.nil_append]
      rw [List.takeWhile_cons_of_neg]
      simp [digit_not_name (hD c (List.mem_cons_self c cs))]
  | cons x xs ih =>
    rw [List.cons_append, List.takeWhile_cons_of_pos
      (by simp [hp x (List.mem_cons_self x xs)])]
    rw [ih (fun c hc => hp c (List.mem_cons_of_mem x hc))]

theorem alpha_digit_split {p D s d : List Char} (hp : AT p) (hD : DT D)
    (hDne : D ≠ []) (hs : AT s) (hd : DT d) (hdne : d ≠ [])
    (heq : p ++ D = s ++ d) : p = s := by
  have h1 := congrArg (List.takeWhile isNameChar) heq
  rwa [takeWhile_AT_append hp hD hDne, takeWhile_AT_append hs hd hdne] at h1

theorem append_ne_left {u v : List Char} (hv : v ≠ []) : u ++ v ≠ u := by
  intro heq
  have := congrArg List.length heq
  simp only [List.length_append] at this
  exact hv (List.length_eq_zero.mp (by omega))

theorem append_ne_right {u v : List Char} (hu : u ≠ []) : u ++ v ≠ v := by
  intro heq
  have := congrArg List.length heq
  simp only [List.length_append] at this
  exact hu (List.length_eq_zero.mp (by omega))

theorem cnLeafSplit {t : CnTokens} (h : CnSep t) {p D : List Char}
    (hp : AT p) (hne : p ≠ t.s) (hD : DT D) (hDne : D ≠ []) :
    ∀ dt ∈ t.dates, stripChars (p ++ D) ≠ t.s ++ dt := by
  intro dt hdt heq
  obtain ⟨hdtD, hdtne⟩ := h.hdates dt hdt
  rw [stripChars_of_noWs (noWs_append (noWs_of_AT hp) (noWs_of_DT hD))] at heq
  exact hne (alpha_digit_split hp hD hDne h.hs hdtD hdtne heq)

theorem cnLeafSplit2 {t : CnTokens} (h : CnSep t) {p q D : List Char}
    (hp : AT p) (hq : AT q) (hne : p ++ q ≠ t.s) (hD : DT D) (hDne : D ≠ []) :
    ∀ dt ∈ t.dates, stripChars (p ++ (q ++ D)) ≠ t.s ++ dt := by
  have hre : p ++ (q ++ D) = (p ++ q) ++ D := by
    simp [List.append_assoc]
  rw [hre]
  exact cnLeafSplit h (AT_append hp hq) hne hD hDne

theorem cnLeafSplit3 {t : CnTokens} (h : CnSep t) {p q r D : List Char}
    (hp : AT p) (hq : AT q) (hr : AT r) (hne : p ++ (q ++ r) ≠ t.s)
    (hD : DT D) (hDne : D ≠ []) :
    ∀ dt ∈ t.dates, stripChars (p ++ (q ++ (r ++ D))) ≠ t.s ++ dt := by
  have hre : p ++ (q ++ (r ++ D)) = (p ++ (q ++ r)) ++ D := by
    simp [List.append_assoc]
  rw [hre]
  exact cnLeafSplit h (AT_append hp (AT_append hq hr)) hne hD hDne

theorem cnLeafAT {t : CnTokens} (h : CnSep t) {y : List Char} (hy : AT y) :
    ∀ dt ∈ t.dates, stripChars y ≠ t.s ++ dt := by
  intro dt hdt heq
  obtain ⟨hdtD, hdtne⟩ := h.hdates dt hdt
  rw [stripChars_of_noWs (noWs_of_AT hy)] at heq
  cases dt with
  | nil => exact hdtne rfl
  | cons c cs =>
    have hcmem : c ∈ t.s ++ (c :: cs) :=
      List.mem_append_right _ (List.mem_cons_self _ _)
    rw [← heq] at hcmem
    have h1 := hy c hcmem
    have h2 := hdtD c (List.mem_cons_self _ _)
    rw [nameChar_not_digit h1] at h2
    exact Bool.false_ne_true h2

theorem cnLeafDot {t : CnTokens} (h : CnSep t) {u v : List Char}
    (hu : noWs u) (hv : noWs v) :
    ∀ dt ∈ t.dates, stripChars (u ++ '.' :: v) ≠ t.s ++ dt := by
  intro dt hdt heq
  obtain ⟨hdtD, _⟩ := h.hdates dt hdt
  rw [stripChars_of_noWs (noWs_append hu (noWs_dot_cons hv))] at heq
  have hdotmem : '.' ∈ u ++ '.' :: v :=
    List.mem_append_right _ (List.mem_cons_self _ _)
  rw [heq] at hdotmem
  rcases List.mem_append.mp hdotmem with hm | hm
  · exact nameChar_ne_dot (h.hs _ hm) rfl
  · exact digitCh_ne_dot (hdtD _ hm) rfl

theorem cnLeafNil {t : CnTokens} (h : CnSep t) :
    ∀ dt ∈ t.dates, stripChars [] ≠ t.s ++ dt := by
  intro dt hdt heq
  have h0 : ([] : List Char) = t.s ++ dt := heq
  exact h.hs_ne (List.append_eq_nil.mp h0.symm).1

theorem forall_mem_append2 {α : Type} {P : α → Prop} {l1 l2 : List α}
    (h1 : ∀ x ∈ l1, P x) (h2 : ∀ x ∈ l2, P x) : ∀ x ∈ l1 ++ l2, P x := by
  intro x hx
  rcases List.mem_append.mp hx with hm | hm
  · exact h1 x hm
  · exact h2 x hm

theorem forall_mem_gate {α : Type} {c : Prop} [Decidable c] {L : List α}
    {P : α → Prop} (h : c → ∀ x ∈ L, P x) :
    ∀ x ∈ (if c then L else []), P x := by
  by_cases hc : c
  · rw [if_pos hc]; exact h hc
  · rw [if_neg hc]; simp

theorem forall_mem_flat {α β : Type} {P : β → Prop} {l : List α}
    {f : α → List β} (h : ∀ a ∈ l, ∀ x ∈ f a, P x) :
    ∀ x ∈ l.flatMap f, P x := by
  intro x hx
  obtain ⟨a, ha, hxa⟩ := List.mem_flatMap.mp hx
  exact h a ha x hxa

theorem P_ite {c : Prop} [Decidable c] {e : List Char} {P : List Char → Prop}
    (h1 : c → P e) (h2 : P []) : P (if c then e else []) := by
  by_cases hc : c
  · rw [if_pos hc]; exact h1 hc
  · rw [if_neg hc]; exact h2

theorem mem_trim {lst : List (List Char)} {m : Nat} {x : List Char}
    (h : x ∈ trim lst m) : ∃ y ∈ lst, x = stripChars y := by
  have hsub : (trim lst m).Sublist (lst.map stripChars) := by
    rw [trim, trimGo_eq_firstDedupGo]
    exact (firstDedupGo_sublist _ _).trans (List.filter_sublist _)
  obtain ⟨y, hy, hxy⟩ := List.mem_map.mp (hsub.subset h)
  exact ⟨y, hy, hxy.symm⟩

theorem noWs_dotC : noWs dotC := by
  intro c hc
  simp only [dotC, List.mem_singleton] at hc
  subst hc
  decide

theorem cnLeafDotMem {t : CnTokens} (h : CnSep t) {x : List Char}
    (hdot : '.' ∈ x) (hx : noWs x) :
    ∀ dt ∈ t.dates, stripChars x ≠ t.s ++ dt := by
  intro dt hdt heq
  obtain ⟨hdtD, _⟩ := h.hdates dt hdt
  rw [stripChars_of_noWs hx] at heq
  rw [heq] at hdot
  rcases List.mem_append.mp hdot with hm | hm
  · exact nameChar_ne_dot (h.hs _ hm) rfl
  · exact digitCh_ne_dot (hdtD _ hm) rfl

theorem cnLeafFlip {t : CnTokens} (h : CnSep t) {p : List Char}
    (hp : AT p) (hne : p ≠ t.s) (hd1 : t.dy2 ≠ []) :
    ∀ dt ∈ t.dates, stripChars ((p ++ t.dy2) ++ t.yr2) ≠ t.s ++ dt := by
  have hre : (p ++ t.dy2) ++ t.yr2 = p ++ (t.dy2 ++ t.yr2) :=
    List.append_assoc p t.dy2 t.yr2
  rw [hre]
  exact cnLeafSplit h hp hne (DT_append h.hdy2 h.hyr2) (by simp [hd1])

theorem chineseBase_no_bare_sd {t : CnTokens} (h : CnSep t) :
    ∀ y ∈ chineseBase t, ∀ dt ∈ t.dates, stripChars y ≠ t.s ++ dt := by
  have pA := h.hpre t.a (by simp [cnDatePrefixes])
  have pG := h.hpre t.g (by simp [cnDatePrefixes])
  have pG2 := h.hpre t.g2 (by simp [cnDatePrefixes])
  have pA2 := h.hpre t.a2 (by simp [cnDatePrefixes])
  have pAG := h.hpre (t.a ++ t.g) (by simp [cnDatePrefixes])
  have pAI := h.hpre (t.a ++ t.init_sg) (by simp [cnDatePrefixes])
  have pG2SI := h.hpre (t.g2 ++ t.si) (by simp [cnDatePrefixes])
  have pG2G := h.hpre (t.g2 ++ t.g) (by simp [cnDatePrefixes])
  have pG2I := h.hpre (t.g2 ++ t.init_sg) (by simp [cnDatePrefixes])
  have pGSI := h.hpre (t.g ++ t.si) (by simp [cnDatePrefixes])
  have pISG := h.hpre t.init_sg (by simp [cnDatePrefixes])
  have pA2G := h.hpre (t.a2 ++ t.g) (by simp [cnDatePrefixes])
  have nA := noWs_of_AT h.ha
  have nA2 := noWs_of_AT h.ha2
  have nG := noWs_of_AT h.hg
  have nG2 := noWs_of_AT h.hg2
  have nS := noWs_of_AT h.hs
  have nSI := noWs_of_AT h.hsi
  have nGI := noWs_of_AT h.hgi
  have nAI := noWs_of_AT h.hai
  have nI := noWs_of_AT h.hisg
  unfold chineseBase
  refine forall_mem_append2 (forall_mem_append2 (forall_mem_append2
    (forall_mem_append2 (forall_mem_append2 (forall_mem_append2
    (forall_mem_append2 (forall_mem_append2 (forall_mem_append2
    (forall_mem_append2 ?_ ?_) ?_) ?_) ?_) ?_) ?_) ?_) ?_) ?_) ?_
  · -- TIER 1
    apply forall_mem_gate
    intro hA
    refine forall_mem_append2 (forall_mem_append2
      (forall_mem_append2 ?_ ?_) ?_) ?_
    · refine forall_mem_flat ?_
      intro d hd x hx
      simp only [List.mem_singleton] at hx
      subst hx
      exact cnLeafSplit h h.ha pA (h.hdates d hd).1 (h.hdates d hd).2
    · apply forall_mem_gate
      intro hflip x hx
      simp only [List.mem_singleton] at hx
      subst hx
      exact cnLeafFlip h h.ha pA hflip.1
    · intro x hx
      simp only [List.mem_cons, List.not_mem_nil, or_false] at hx
      rcases hx with rfl | rfl | rfl
      · exact cnLeafAT h (AT_append h.ha h.hsi)
      · exact cnLeafDotMem h (by simp [dotC])
          (noWs_append (noWs_append nA noWs_dotC) nSI)
      · exact cnLeafDotMem h (by simp [dotC])
          (noWs_append (noWs_append nSI noWs_dotC) nA)
    · intro x hx
      simp only [List.mem_cons, List.not_mem_nil, or_false] at hx
      rcases hx with rfl | rfl | rfl
      · exact cnLeafAT h h.hias
      · exact cnLeafAT h h.hiasg
      · exact cnLeafDotMem h (by simp [dotC])
          (noWs_append (noWs_append nAI noWs_dotC) nS)
  · -- TIER 2
    apply forall_mem_gate
    intro hA
    refine forall_mem_append2 ?_ ?_
    · intro x hx
      simp only [List.mem_cons, List.not_mem_nil, or_false] at hx
      rcases hx with rfl | rfl | rfl
      · exact cnLeafAT h (AT_append h.ha h.hg)
      · exact cnLeafDotMem h (by simp [dotC])
          (noWs_append (noWs_append nA noWs_dotC) nG)
      · exact cnLeafDotMem h (by simp [dotC])
          (noWs_append (noWs_append nG noWs_dotC) nA)
    · refine forall_mem_flat ?_
      intro d hd x hx
      simp only [List.mem_cons, List.not_mem_nil, or_false] at hx
      rcases hx with rfl | rfl
      · exact cnLeafSplit h (AT_append h.ha h.hg) pAG (h.hdates d hd).1
          (h.hdates d hd).2
      · exact cnLeafDotMem h (by simp [dotC])
          (noWs_append (noWs_append (noWs_append nA noWs_dotC) nG)
            (noWs_of_DT (h.hdates d hd).1))
  · -- TIER 3
    apply forall_mem_gate
    intro hA
    refine forall_mem_append2 ?_ ?_
    · intro x hx
      simp only [List.mem_cons, List.not_mem_nil, or_false] at hx
      rcases hx with rfl | rfl | rfl
      · exact cnLeafAT h (AT_append h.ha h.hisg)
      · exact cnLeafDotMem h (by simp [dotC])
          (noWs_append (noWs_append nA noWs_dotC) nI)
      · exact cnLeafDotMem h (by simp [dotC])
          (noWs_append (noWs_append nI noWs_dotC) nA)
    · refine forall_mem_flat ?_
      intro d hd x hx
      simp only [List.mem_cons, List.not_mem_nil, or_false] at hx
      rcases hx with rfl | rfl
      · exact cnLeafSplit h (AT_append h.ha h.hisg) pAI (h.hdates d hd).1
          (h.hdates d hd).2
      · exact cnLeafDotMem h (by simp [dotC])
          (noWs_append (noWs_append (noWs_append nA noWs_dotC) nI)
            (noWs_of_DT (h.hdates d hd).1))
  · -- TIER 4
    apply forall_mem_gate
    intro hA
    refine forall_mem_append2 ?_ ?_
    · intro x hx
      simp only [List.mem_cons, List.not_mem_nil, or_false] at hx
      rcases hx with rfl | rfl | rfl
      · exact cnLeafAT h (AT_append h.ha h.hs)
      · exact cnLeafDotMem h (by simp [dotC])
          (noWs_append (noWs_append nA noWs_dotC) nS)
      · exact cnLeafDotMem h (by simp [dotC])
          (noWs_append (noWs_append nS noWs_dotC) nA)
    · refine forall_mem_flat ?_
      intro d hd x hx
      simp only [List.mem_cons, List.not_mem_nil, or_false] at hx
      rcases hx with rfl | rfl
      · exact cnLeafSplit h (AT_append h.ha h.hs) (append_ne_right hA)
          (h.hdates d hd).1 (h.hdates d hd).2
      · exact cnLeafDotMem h (by simp [dotC])
          (noWs_append (noWs_append (noWs_append nA noWs_dotC) nS)
            (noWs_of_DT (h.hdates d hd).1))
  · -- TIER 5
    apply forall_mem_gate
    intro hG2
    refine forall_mem_append2 (forall_mem_append2
      (forall_mem_append2 ?_ ?_) ?_) ?_
    · refine forall_mem_flat ?_
      intro d hd x hx
      simp only [List.mem_singleton] at hx
      subst hx
      exact cnLeafSplit h h.hg2 pG2 (h.hdates d hd).1 (h.hdates d hd).2
    · apply forall_mem_gate
      intro hflip x hx
      simp only [List.mem_singleton] at hx
      subst hx
      exact cnLeafFlip h h.hg2 pG2 hflip.1
    · intro x hx
      simp only [List.mem_cons, List.not_mem_nil, or_false] at hx
      rcases hx with rfl | rfl | rfl
      · exact cnLeafAT h (AT_append h.hg2 h.hsi)
      · exact cnLeafDotMem h (by simp [dotC])
          (noWs_append (noWs_append nG2 noWs_dotC) nSI)
      · exact cnLeafDotMem h (by simp [dotC])
          (noWs_append (noWs_append nSI noWs_dotC) nG2)
    · refine forall_mem_flat ?_
      intro d hd x hx
      simp only [List.mem_cons, List.not_mem_nil, or_false] at hx
      rcases hx with rfl | rfl
      · exact cnLeafSplit h (AT_append h.hg2 h.hsi) pG2SI (h.hdates d hd).1
          (h.hdates d hd).2
      · exact cnLeafDotMem h (by simp [dotC])
          (noWs_append (noWs_append (noWs_append nG2 noWs_dotC) nSI)
            (noWs_of_DT (h.hdates d hd).1))
  · -- TIER 6
    apply forall_mem_gate
    intro hG2
    refine forall_mem_append2 (forall_mem_append2 (forall_mem_append2
      (forall_mem_append2 (forall_mem_append2 ?_ ?_) ?_) ?_) ?_) ?_
    · intro x hx
      simp only [List.mem_cons, List.not_mem_nil, or_false] at hx
      rcases hx with rfl | rfl
      · exact cnLeafAT h (AT_append h.hg2 h.hg)
      · exact cnLeafDotMem h (by simp [dotC])
          (noWs_append (noWs_append nG2 noWs_dotC) nG)
    · refine forall_mem_flat ?_
      intro d hd x hx
      simp only [List.mem_cons, List.not_mem_nil, or_false] at hx
      rcases hx with rfl | rfl
      · exact cnLeafSplit h (AT_append h.hg2 h.hg) pG2G (h.hdates d hd).1
          (h.hdates d hd).2
      · exact cnLeafDotMem h (by simp [dotC])
          (noWs_append (noWs_append (noWs_append nG2 noWs_dotC) nG)
            (noWs_of_DT (h.hdates d hd).1))
    · intro x hx
      simp only [List.mem_cons, List.not_mem_nil, or_false] at hx
      rcases hx with rfl | rfl | rfl
      · exact cnLeafAT h (AT_append h.hg2 h.hisg)
      · exact cnLeafDotMem h (by simp [dotC])
          (noWs_append (noWs_append nG2 noWs_dotC) nI)
      · exact cnLeafDotMem h (by simp [dotC])
          (noWs_append (noWs_append nI noWs_dotC) nG2)
    · refine forall_mem_flat ?_
      intro d hd x hx
      simp only [List.mem_cons, List.not_mem_nil, or_false] at hx
      rcases hx with rfl | rfl
      · exact cnLeafSplit h (AT_append h.hg2 h.hisg) pG2I (h.hdates d hd).1
          (h.hdates d hd).2
      · exact cnLeafDotMem h (by simp [dotC])
          (noWs_append (noWs_append (noWs_append nG2 noWs_dotC) nI)
            (noWs_of_DT (h.hdates d hd).1))
    · intro x hx
      simp only [List.mem_cons, List.not_mem_nil, or_false] at hx
      rcases hx with rfl | rfl | rfl
      · exact cnLeafAT h (AT_append h.hg2 h.hs)
      · exact cnLeafDotMem h (by simp [dotC])
          (noWs_append (noWs_append nG2 noWs_dotC) nS)
      · exact cnLeafDotMem h (by simp [dotC])
          (noWs_append (noWs_append nS noWs_dotC) nG2)
    · refine forall_mem_flat ?_
      intro d hd x hx
      simp only [List.mem_cons, List.not_mem_nil, or_false] at hx
      rcases hx with rfl | rfl
      · exact cnLeafSplit h (AT_append h.hg2 h.hs) (append_ne_right hG2)
          (h.hdates d hd).1 (h.hdates d hd).2
      · exact cnLeafDotMem h (by simp [dotC])
          (noWs_append (noWs_append (noWs_append nG2 noWs_dotC) nS)
            (noWs_of_DT (h.hdates d hd).1))
  · -- TIER 7
    refine forall_mem_append2 ?_ ?_
    · intro x hx
      simp only [List.mem_cons, List.not_mem_nil, or_false] at hx
      rcases hx with rfl | rfl | rfl
      · exact cnLeafAT h (AT_append h.hg h.hsi)
      · exact cnLeafDotMem h (by simp [dotC])
          (noWs_append (noWs_append nG noWs_dotC) nSI)
      · exact cnLeafDotMem h (by simp [dotC])
          (noWs_append (noWs_append nSI noWs_dotC) nG)
    · refine forall_mem_flat ?_
      intro d hd x hx
      simp only [List.mem_cons, List.not_mem_nil, or_false] at hx
      rcases hx with rfl | rfl
      · exact cnLeafSplit h (AT_append h.hg h.hsi) pGSI (h.hdates d hd).1
          (h.hdates d hd).2
      · exact cnLeafDotMem h (by simp [dotC])
          (noWs_append (noWs_append (noWs_append nG noWs_dotC) nSI)
            (noWs_of_DT (h.hdates d hd).1))
  · -- TIER 8
    refine forall_mem_flat ?_
    intro d hd x hx
    simp only [List.mem_singleton] at hx
    subst hx
    exact cnLeafSplit h h.hg pG (h.hdates d hd).1 (h.hdates d hd).2
  · -- TIER 9
    refine forall_mem_append2 ?_ ?_
    · intro x hx
      simp only [List.mem_cons, List.not_mem_nil, or_false] at hx
      rcases hx with rfl | rfl | rfl
      · exact cnLeafAT h (AT_append h.hs h.hgi)
      · exact cnLeafAT h h.hisg
      · exact cnLeafDotMem h (by simp [dotC])
          (noWs_append (noWs_append nS noWs_dotC) nGI)
    · refine forall_mem_flat ?_
      intro d hd x hx
      simp only [List.mem_cons, List.not_mem_nil, or_false] at hx
      rcases hx with rfl | rfl
      · exact cnLeafSplit h (AT_append h.hs h.hgi)
          (append_ne_left h.hgi_ne) (h.hdates d hd).1 (h.hdates d hd).2
      · exact cnLeafSplit h h.hisg pISG (h.hdates d hd).1 (h.hdates d hd).2
  · -- TIER 10
    intro x hx
    simp only [List.mem_cons, List.not_mem_nil, or_false] at hx
    rcases hx with rfl | rfl
    · exact cnLeafAT h (AT_append h.hs h.hg)
    · exact cnLeafAT h (AT_append h.hg h.hs)
  · -- ALIAS2 block
    apply forall_mem_gate
    intro hA2
    refine forall_mem_append2 ?_ ?_
    · intro x hx
      simp only [List.mem_cons, List.not_mem_nil, or_false] at hx
      rcases hx with rfl | rfl | rfl | rfl
      · exact cnLeafAT h (AT_append h.ha2 h.hg)
      · exact cnLeafAT h (AT_append h.ha2 h.hs)
      · exact cnLeafDotMem h (by simp [dotC])
          (noWs_append (noWs_append nG noWs_dotC) nA2)
      · by_cases hA : t.a ≠ []
        · rw [if_pos hA]
          exact cnLeafDotMem h (by simp [dotC])
            (noWs_append (noWs_append nA noWs_dotC) nA2)
        · rw [if_neg hA]
          exact cnLeafNil h
    · refine forall_mem_flat ?_
      intro d hd x hx
      simp only [List.mem_cons, List.not_mem_nil, or_false] at hx
      rcases hx with rfl | rfl
      · exact cnLeafSplit h h.ha2 pA2 (h.hdates d hd).1 (h.hdates d hd).2
      · exact cnLeafSplit h (AT_append h.ha2 h.hg) pA2G (h.hdates d hd).1
          (h.hdates d hd).2

theorem chineseExtra_no_bare_sd {t : CnTokens} (h : CnSep t) :
    ∀ y ∈ chineseExtra t, ∀ dt ∈ t.dates, stripChars y ≠ t.s ++ dt := by
  have pA2 := h.hpre t.a2 (by simp [cnDatePrefixes])
  have pA2G := h.hpre (t.a2 ++ t.g) (by simp [cnDatePrefixes])
  have pAGSI := h.hpre (t.a ++ t.g ++ t.si) (by simp [cnDatePrefixes])
  have pAIG := h.hpre (t.ai ++ t.g) (by simp [cnDatePrefixes])
  have pAII := h.hpre (t.ai ++ t.init_sg) (by simp [cnDatePrefixes])
  have pG2GSI := h.hpre (t.g2 ++ t.g ++ t.si) (by simp [cnDatePrefixes])
  have pAIG2 := h.hpre (t.ai ++ t.g2) (by simp [cnDatePrefixes])
  have pAG2 := h.hpre (t.a ++ t.g2) (by simp [cnDatePrefixes])
  have pAG2SI := h.hpre (t.a ++ t.g2 ++ t.si) (by simp [cnDatePrefixes])
  have nA := noWs_of_AT h.ha
  have nA2 := noWs_of_AT h.ha2
  have nG := noWs_of_AT h.hg
  have nG2 := noWs_of_AT h.hg2
  have nS := noWs_of_AT h.hs
  have nSI := noWs_of_AT h.hsi
  have nGI := noWs_of_AT h.hgi
  have nAI := noWs_of_AT h.hai
  have nI := noWs_of_AT h.hisg
  unfold chineseExtra
  refine forall_mem_append2 (forall_mem_append2 (forall_mem_append2
    (forall_mem_append2 ?_ ?_) ?_) ?_) ?_
  · -- full alias block
    apply forall_mem_gate
    intro hA
    refine forall_mem_append2 ?_ ?_
    · refine forall_mem_flat ?_
      intro d hd x hx
      simp only [List.mem_cons, List.not_mem_nil, or_false] at hx
      rcases hx with rfl | rfl | rfl | rfl | rfl
      · exact cnLeafSplit h (AT_append (AT_append h.ha h.hg) h.hsi) pAGSI
          (h.hdates d hd).1 (h.hdates d hd).2
      · exact cnLeafDotMem h (by simp [dotC])
          (noWs_append (noWs_append (noWs_append (noWs_append
            (noWs_append nA noWs_dotC) nG) noWs_dotC) nSI)
            (noWs_of_DT (h.hdates d hd).1))
      · exact cnLeafSplit h (AT_append h.hai h.hg) pAIG (h.hdates d hd).1
          (h.hdates d hd).2
      · exact cnLeafDotMem h (by simp [dotC])
          (noWs_append (noWs_append (noWs_append nAI noWs_dotC) nG)
            (noWs_of_DT (h.hdates d hd).1))
      · exact cnLeafSplit h (AT_append h.hai h.hisg) pAII (h.hdates d hd).1
          (h.hdates d hd).2
    · intro x hx
      simp only [List.mem_cons, List.not_mem_nil, or_false] at hx
      rcases hx with rfl | rfl | rfl | rfl | rfl | rfl
      · exact cnLeafAT h (AT_append h.hai h.hg)
      · exact cnLeafDotMem h (by simp [dotC])
          (noWs_append (noWs_append nAI noWs_dotC) nG)
      · exact cnLeafAT h (AT_append h.hai h.hisg)
      · exact cnLeafDotMem h (by simp [dotC])
          (noWs_append (noWs_append (noWs_append (noWs_append nA noWs_dotC)
            nS) noWs_dotC) nG)
      · exact cnLeafAT h (AT_append h.ha h.hgi)
      · exact cnLeafDotMem h (by simp [dotC])
          (noWs_append (noWs_append nA noWs_dotC) nGI)
  · -- given × date dot variants
    refine forall_mem_flat ?_
    intro d hd x hx
    simp only [List.mem_cons, List.not_mem_nil, or_false] at hx
    rcases hx with rfl | rfl
    · exact cnLeafDotMem h (by simp [dotC])
        (noWs_append (noWs_append nG noWs_dotC)
          (noWs_of_DT (h.hdates d hd).1))
    · exact cnLeafDotMem h (by simp [dotC])
        (noWs_append (noWs_append (noWs_append (noWs_append nG noWs_dotC)
          nSI) noWs_dotC) (noWs_of_DT (h.hdates d hd).1))
  · -- surname dot combos
    intro x hx
    simp only [List.mem_cons, List.not_mem_nil, or_false] at hx
    rcases hx with rfl | rfl | rfl | rfl
    · exact cnLeafDotMem h (by simp [dotC])
        (noWs_append (noWs_append nS noWs_dotC) nG)
    · exact cnLeafDotMem h (by simp [dotC])
        (noWs_append (noWs_append nG noWs_dotC) nS)
    · exact cnLeafDotMem h (by simp [dotC])
        (noWs_append (noWs_append nS noWs_dotC) nI)
    · exact cnLeafDotMem h (by simp [dotC])
        (noWs_append (noWs_append nI noWs_dotC) nS)
  · -- g2 extended block
    apply forall_mem_gate
    intro hG2
    refine forall_mem_append2 (forall_mem_append2 ?_ ?_) ?_
    · refine forall_mem_flat ?_
      intro d hd x hx
      simp only [List.mem_cons, List.not_mem_nil, or_false] at hx
      rcases hx with rfl | rfl | rfl
      · exact cnLeafSplit h (AT_append (AT_append h.hg2 h.hg) h.hsi) pG2GSI
          (h.hdates d hd).1 (h.hdates d hd).2
      · by_cases hA : t.a ≠ []
        · rw [if_pos hA]
          exact cnLeafSplit h (AT_append h.hai h.hg2) pAIG2
            (h.hdates d hd).1 (h.hdates d hd).2
        · rw [if_neg hA]
          exact cnLeafNil h
      · exact cnLeafDotMem h (by simp [dotC])
          (noWs_append (noWs_append (noWs_append (noWs_append nG2 noWs_dotC)
            nG) noWs_dotC) nSI)
    · intro x hx
      simp only [List.mem_cons, List.not_mem_nil, or_false] at hx
      rcases hx with rfl | rfl | rfl | rfl | rfl
      · exact cnLeafDotMem h (by simp [dotC])
          (noWs_append (noWs_append (noWs_append nG2 noWs_dotC) nG) nSI)
      · exact cnLeafAT h (AT_append h.hg2 h.hgi)
      · exact cnLeafDotMem h (by simp [dotC])
          (noWs_append (noWs_append nG2 noWs_dotC) nGI)
      · by_cases hA : t.a ≠ []
        · rw [if_pos hA]
          exact cnLeafAT h (AT_append h.hai h.hg2)
        · rw [if_neg hA]
          exact cnLeafNil h
      · by_cases hA : t.a ≠ []
        · rw [if_pos hA]
          exact cnLeafDotMem h (by simp [dotC])
            (noWs_append (noWs_append nAI noWs_dotC) nG2)
        · rw [if_neg hA]
          exact cnLeafNil h
    · apply forall_mem_gate
      intro hA
      refine forall_mem_append2 ?_ ?_
      · intro x hx
        simp only [List.mem_cons, List.not_mem_nil, or_false] at hx
        rcases hx with rfl | rfl
        · exact cnLeafAT h (AT_append h.ha h.hg2)
        · exact cnLeafDotMem h (by simp [dotC])
            (noWs_append (noWs_append nA noWs_dotC) nG2)
      · refine forall_mem_flat ?_
        intro d hd x hx
        simp only [List.mem_cons, List.not_mem_nil, or_false] at hx
        rcases hx with rfl | rfl | rfl
        · exact cnLeafSplit h (AT_append h.ha h.hg2) pAG2
            (h.hdates d hd).1 (h.hdates d hd).2
        · exact cnLeafDotMem h (by simp [dotC])
            (noWs_append (noWs_append (noWs_append nA noWs_dotC) nG2)
              (noWs_of_DT (h.hdates d hd).1))
        · exact cnLeafSplit h (AT_append (AT_append h.ha h.hg2) h.hsi)
            pAG2SI (h.hdates d hd).1 (h.hdates d hd).2
  · -- alias2 extended
    apply forall_mem_gate
    intro hA2
    refine forall_mem_append2 ?_ ?_
    · refine forall_mem_flat ?_
      intro d hd x hx
      simp only [List.mem_cons, List.not_mem_nil, or_false] at hx
      rcases hx with rfl | rfl | rfl
      · exact cnLeafSplit h h.ha2 pA2 (h.hdates d hd).1 (h.hdates d hd).2
      · exact cnLeafDotMem h (by simp [dotC])
          (noWs_append (noWs_append nA2 noWs_dotC)
            (noWs_of_DT (h.hdates d hd).1))
      · exact cnLeafSplit h (AT_append h.ha2 h.hg) pA2G (h.hdates d hd).1
          (h.hdates d hd).2
    · intro x hx
      simp only [List.mem_cons, List.not_mem_nil, or_false] at hx
      rcases hx with rfl | rfl | rfl
      · exact cnLeafDotMem h (by simp [dotC])
          (noWs_append (noWs_append nA2 noWs_dotC) nG)
      · exact cnLeafDotMem h (by simp [dotC])
          (noWs_append (noWs_append nA2 noWs_dotC) nS)
      · exact cnLeafAT h (AT_append h.ha2 h.hisg)

theorem chineseCombos_no_bare_sd {t : CnTokens} (h : CnSep t) (full : Bool) :
    ∀ y ∈ chineseCombos t full, ∀ dt ∈ t.dates, stripChars y ≠ t.s ++ dt := by
  unfold chineseCombos
  refine forall_mem_append2 (chineseBase_no_bare_sd h) ?_
  cases full
  · simp
  · simpa using chineseExtra_no_bare_sd h

/-- C9 counterexample: for `last="Chan"`, empty `first`, `alias="Tommy"`,
`dob="2001/10/15"`, the claim's hypotheses hold (alias, alias2, full given
name and second given word all differ from the surname), yet the output
contains the bare surname `"chan"` followed by the date token `"2001"`. -/
theorem chinese_bare_surname_date_counterexample :
    ((cnDerive ("Chan".data) [] ("Tommy".data) [] []
        ("2001/10/15".data)).a ≠
      (cnDerive ("Chan".data) [] ("Tommy".data) [] []
        ("2001/10/15".data)).s) ∧
    ((cnDerive ("Chan".data) [] ("Tommy".data) [] []
        ("2001/10/15".data)).a2 ≠
      (cnDerive ("Chan".data) [] ("Tommy".data) [] []
        ("2001/10/15".data)).s) ∧
    ((cnDerive ("Chan".data) [] ("Tommy".data) [] []
        ("2001/10/15".data)).g ≠
      (cnDerive ("Chan".data) [] ("Tommy".data) [] []
        ("2001/10/15".data)).s) ∧
    ((cnDerive ("Chan".data) [] ("Tommy".data) [] []
        ("2001/10/15".data)).g2 ≠
      (cnDerive ("Chan".data) [] ("Tommy".data) [] []
        ("2001/10/15".data)).s) ∧
    ("2001".data) ∈ (cnDerive ("Chan".data) [] ("Tommy".data) [] []
        ("2001/10/15".data)).dates ∧
    ((cnDerive ("Chan".data) [] ("Tommy".data) [] []
        ("2001/10/15".data)).s ++ ("2001".data)) ∈
      generate_chinese ("Chan".data) [] ("Tommy".data) [] []
        ("2001/10/15".data) false := by decide

/-- C9 (amended): under well-typedness side conditions — alphabetic name
tokens, non-empty surname, non-empty given initials, digit-only date tokens,
and no date-carrying token concatenation equal to the surname (`CnSep`) —
`generate_chinese` never emits the bare surname directly followed by a date
token, in default or full mode. -/
theorem chinese_no_bare_surname_date
    (last first alias1 alias2 year dob : List Char) (full : Bool)
    (h : CnSep (cnDerive last first alias1 alias2 year dob)) :
    ∀ x ∈ generate_chinese last first alias1 alias2 year dob full,
      ∀ dt ∈ (cnDerive last first alias1 alias2 year dob).dates,
        x ≠ (cnDerive last first alias1 alias2 year dob).s ++ dt := by
  intro x hx dt hdt
  obtain ⟨y, hy, rfl⟩ := mem_trim hx
  exact chineseCombos_no_bare_sd h full y hy dt hdt

theorem chinese_no_bare_surname_date_witness :
    ("tommy2001".data) ≠
      (cnDerive ("Chan".data) ("Tai Man".data) ("Tommy".data) [] []
        ("2001/10/15".data)).s ++ ("2001".data) :=
  chinese_no_bare_surname_date ("Chan".data) ("Tai Man".data) ("Tommy".data)
    [] [] ("2001/10/15".data) false
    (by constructor <;> decide) _ (by decide) _ (by decide)

theorem prefix_pair {a b : Char} {m : List Char} (h : [a, b].IsPrefix m) :
    m.head? = some a ∧ m.tail.head? = some b := by
  obtain ⟨rest, hrest⟩ := h
  subst hrest
  exact ⟨rfl, rfl⟩

theorem infix_pair_append {a b : Char} {x y : List Char}
    (h : List.IsInfix [a, b] (x ++ y)) :
    List.IsInfix [a, b] x ∨ List.IsInfix [a, b] y ∨
      (x.getLast? = some a ∧ y.head? = some b) := by
  induction x with
  | nil =>
    right; left
    simpa using h
  | cons c x' ih =>
    rw [List.cons_append] at h
    rcases List.infix_cons_iff.mp h with hpre | hinf
    · obtain ⟨hac, htail⟩ := List.cons_prefix_cons.mp hpre
      subst hac
      obtain ⟨rest, hrest⟩ := htail
      rw [List.singleton_append] at hrest
      cases x' with
      | nil =>
        right; right
        refine ⟨rfl, ?_⟩
        rw [List.nil_append] at hrest
        rw [← hrest]
        rfl
      | cons d x'' =>
        left
        rw [List.cons_append] at hrest
        have hd : d = b := by
          have := congrArg List.head? hrest
          simpa using this.symm
        subst hd
        exact ⟨[], x'', rfl⟩
    · rcases ih hinf with h1 | h2 | h3
      · left
        exact h1.trans (List.suffix_cons c x').isInfix
      · right; left; exact h2
      · right; right
        refine ⟨?_, h3.2⟩
        cases x' with
        | nil => simp at h3
        | cons d x'' =>
          rw [List.getLast?_cons_cons]
          exact h3.1

/-- Soundness of `Nice`: the string is non-empty, begins and ends with a
non-dot non-whitespace character, and has no two consecutive dots. -/
theorem nice_inv {x : List Char} (h : Nice x) : NiceInv x := by
  induction h with
  | seg t ht =>
    obtain ⟨hne, hdot, hh, hl⟩ := ht
    refine ⟨hne, ?_, ?_, ?_⟩
    · intro c hc
      refine ⟨hdot c (List.mem_of_mem_head? (by rw [hc]; rfl)), hh c hc⟩
    · intro c hc
      exact ⟨hdot c (List.mem_of_getLast?_eq_some hc), hl c hc⟩
    · intro hinf
      have hmem : '.' ∈ t := hinf.sublist.subset (by simp)
      exact hdot '.' hmem rfl
  | dot u v hu hv ihu ihv =>
    obtain ⟨hune, huh, hul, hui⟩ := ihu
    obtain ⟨hvne, hvh, hvl, hvi⟩ := ihv
    refine ⟨by simp, ?_, ?_, ?_⟩
    · intro c hc
      cases u with
      | nil => exact absurd rfl hune
      | cons d u' =>
        rw [List.cons_append, List.head?_cons, Option.some.injEq] at hc
        subst hc
        exact huh d rfl
    · intro c hc
      rw [List.getLast?_append] at hc
      cases v with
      | nil => exact absurd rfl hvne
      | cons e v' =>
        rw [List.getLast?_cons_cons] at hc
        have hsome : (e :: v').getLast?.isSome := by
          rw [List.getLast?_isSome]
          simp
        rw [Option.or_of_isSome hsome] at hc
        exact hvl c hc
    · intro hinf
      rcases infix_pair_append hinf with h1 | h2 | h3
      · exact hui h1
      · rcases List.infix_cons_iff.mp h2 with hpre | hinf2
        · have hsnd := (prefix_pair hpre).2
          rw [List.tail_cons] at hsnd
          cases v with
          | nil => exact absurd rfl hvne
          | cons e v' =>
            rw [List.head?_cons, Option.some.injEq] at hsnd
            exact ((hvh e rfl).1 hsnd).elim
        · exact hvi hinf2
      · exact ((hul '.' h3.1).1 rfl).elim
  | app u v hu hv ihu ihv =>
    obtain ⟨hune, huh, hul, hui⟩ := ihu
    obtain ⟨hvne, hvh, hvl, hvi⟩ := ihv
    refine ⟨by simp [hune], ?_, ?_, ?_⟩
    · intro c hc
      cases u with
      | nil => exact absurd rfl hune
      | cons d u' =>
        rw [List.cons_append, List.head?_cons, Option.some.injEq] at hc
        subst hc
        exact huh d rfl
    · intro c hc
      rw [List.getLast?_append] at hc
      have hsome : v.getLast?.isSome := by
        rw [List.getLast?_isSome]
        exact hvne
      rw [Option.or_of_isSome hsome] at hc
      exact hvl c hc
    · intro hinf
      rcases infix_pair_append hinf with h1 | h2 | h3
      · exact hui h1
      · exact hvi h2
      · exact ((hul '.' h3.1).1 rfl).elim

theorem nice_seg {t : List Char} (h : SegP t) : Nice t :=
  Nice.seg t h

theorem nice_app {u v : List Char} (hu : Nice u) (hv : Nice v) :
    Nice (u ++ v) :=
  Nice.app u v hu hv

theorem nice_dot1 {u v : List Char} (hu : Nice u) (hv : Nice v) :
    Nice ((u ++ dotC) ++ v) := by
  have hre : (u ++ dotC) ++ v = u ++ '.' :: v := by
    simp [dotC]
  rw [hre]
  exact Nice.dot u v hu hv

theorem chineseBase_nice {t : CnTokens} (h : CnDot t) :
    ∀ y ∈ chineseBase t, y = [] ∨ Nice y := by
  have sS := nice_seg h.s_seg
  have sG := nice_seg h.g_seg
  have sSI := nice_seg h.si_seg
  have sGI := nice_seg h.gi_seg
  have sI := nice_seg h.isg_seg
  unfold chineseBase
  refine forall_mem_append2 (forall_mem_append2 (forall_mem_append2
    (forall_mem_append2 (forall_mem_append2 (forall_mem_append2
    (forall_mem_append2 (forall_mem_append2 (forall_mem_append2
    (forall_mem_append2 ?_ ?_) ?_) ?_) ?_) ?_) ?_) ?_) ?_) ?_) ?_
  · -- TIER 1
    apply forall_mem_gate
    intro hA
    have sA := nice_seg (h.a_seg hA)
    have sAI := nice_seg (h.ai_seg hA)
    refine forall_mem_append2 (forall_mem_append2
      (forall_mem_append2 ?_ ?_) ?_) ?_
    · refine forall_mem_flat ?_
      intro d hd x hx
      simp only [List.mem_singleton] at hx
      subst hx
      exact Or.inr (nice_app sA (nice_seg (h.dates_seg d hd)))
    · apply forall_mem_gate
      intro hflip x hx
      simp only [List.mem_singleton] at hx
      subst hx
      exact Or.inr (nice_app (nice_app sA (nice_seg (h.dy2_seg hflip.1)))
        (nice_seg (h.yr2_seg hflip.2)))
    · intro x hx
      simp only [List.mem_cons, List.not_mem_nil, or_false] at hx
      rcases hx with rfl | rfl | rfl
      · exact Or.inr (nice_app sA sSI)
      · exact Or.inr (nice_dot1 sA sSI)
      · exact Or.inr (nice_dot1 sSI sA)
    · intro x hx
      simp only [List.mem_cons, List.not_mem_nil, or_false] at hx
      rcases hx with rfl | rfl | rfl
      · exact Or.inr (nice_seg (h.ias_seg hA))
      · exact Or.inr (nice_seg (h.iasg_seg hA))
      · exact Or.inr (nice_dot1 sAI sS)
  · -- TIER 2
    apply forall_mem_gate
    intro hA
    have sA := nice_seg (h.a_seg hA)
    refine forall_mem_append2 ?_ ?_
    · intro x hx
      simp only [List.mem_cons, List.not_mem_nil, or_false] at hx
      rcases hx with rfl | rfl | rfl
      · exact Or.inr (nice_app sA sG)
      · exact Or.inr (nice_dot1 sA sG)
      · exact Or.inr (nice_dot1 sG sA)
    · refine forall_mem_flat ?_
      intro d hd x hx
      simp only [List.mem_cons, List.not_mem_nil, or_false] at hx
      rcases hx with rfl | rfl
      · exact Or.inr (nice_app (nice_app sA sG)
          (nice_seg (h.dates_seg d hd)))
      · exact Or.inr (nice_app (nice_dot1 sA sG)
          (nice_seg (h.dates_seg d hd)))
  · -- TIER 3
    apply forall_mem_gate
    intro hA
    have sA := nice_seg (h.a_seg hA)
    refine forall_mem_append2 ?_ ?_
    · intro x hx
      simp only [List.mem_cons, List.not_mem_nil, or_false] at hx
      rcases hx with rfl | rfl | rfl
      · exact Or.inr (nice_app sA sI)
      · exact Or.inr (nice_dot1 sA sI)
      · exact Or.inr (nice_dot1 sI sA)
    · refine forall_mem_flat ?_
      intro d hd x hx
      simp only [List.mem_cons, List.not_mem_nil, or_false] at hx
      rcases hx with rfl | rfl
      · exact Or.inr (nice_app (nice_app sA sI)
          (nice_seg (h.dates_seg d hd)))
      · exact Or.inr (nice_app (nice_dot1 sA sI)
          (nice_seg (h.dates_seg d hd)))
  · -- TIER 4
    apply forall_mem_gate
    intro hA
    have sA := nice_seg (h.a_seg hA)
    refine forall_mem_append2 ?_ ?_
    · intro x hx
      simp only [List.mem_cons, List.not_mem_nil, or_false] at hx
      rcases hx with rfl | rfl | rfl
      · exact Or.inr (nice_app sA sS)
      · exact Or.inr (nice_dot1 sA sS)
      · exact Or.inr (nice_dot1 sS sA)
    · refine forall_mem_flat ?_
      intro d hd x hx
      simp only [List.mem_cons, List.not_mem_nil, or_false] at hx
      rcases hx with rfl | rfl
      · exact Or.inr (nice_app (nice_app sA sS)
          (nice_seg (h.dates_seg d hd)))
      · exact Or.inr (nice_app (nice_dot1 sA sS)
          (nice_seg (h.dates_seg d hd)))
  · -- TIER 5
    apply forall_mem_gate
    intro hG2
    have sG2 := nice_seg (h.g2_seg hG2)
    refine forall_mem_append2 (forall_mem_append2
      (forall_mem_append2 ?_ ?_) ?_) ?_
    · refine forall_mem_flat ?_
      intro d hd x hx
      simp only [List.mem_singleton] at hx
      subst hx
      exact Or.inr (nice_app sG2 (nice_seg (h.dates_seg d hd)))
    · apply forall_mem_gate
      intro hflip x hx
      simp only [List.mem_singleton] at hx
      subst hx
      exact Or.inr (nice_app (nice_app sG2 (nice_seg (h.dy2_seg hflip.1)))
        (nice_seg (h.yr2_seg hflip.2)))
    · intro x hx
      simp only [List.mem_cons, List.not_mem_nil, or_false] at hx
      rcases hx with rfl | rfl | rfl
      · exact Or.inr (nice_app sG2 sSI)
      · exact Or.inr (nice_dot1 sG2 sSI)
      · exact Or.inr (nice_dot1 sSI sG2)
    · refine forall_mem_flat ?_
      intro d hd x hx
      simp only [List.mem_cons, List.not_mem_nil, or_false] at hx
      rcases hx with rfl | rfl
      · exact Or.inr (nice_app (nice_app sG2 sSI)
          (nice_seg (h.dates_seg d hd)))
      · exact Or.inr (nice_app (nice_dot1 sG2 sSI)
          (nice_seg (h.dates_seg d hd)))
  · -- TIER 6
    apply forall_mem_gate
    intro hG2
    have sG2 := nice_seg (h.g2_seg hG2)
    refine forall_mem_append2 (forall_mem_append2 (forall_mem_append2
      (forall_mem_append2 (forall_mem_append2 ?_ ?_) ?_) ?_) ?_) ?_
    · intro x hx
      simp only [List.mem_cons, List.not_mem_nil, or_false] at hx
      rcases hx with rfl | rfl
      · exact Or.inr (nice_app sG2 sG)
      · exact Or.inr (nice_dot1 sG2 sG)
    · refine forall_mem_flat ?_
      intro d hd x hx
      simp only [List.mem_cons, List.not_mem_nil, or_false] at hx
      rcases hx with rfl | rfl
      · exact Or.inr (nice_app (nice_app sG2 sG)
          (nice_seg (h.dates_seg d hd)))
      · exact Or.inr (nice_app (nice_dot1 sG2 sG)
          (nice_seg (h.dates_seg d hd)))
    · intro x hx
      simp only [List.mem_cons, List.not_mem_nil, or_false] at hx
      rcases hx with rfl | rfl | rfl
      · exact Or.inr (nice_app sG2 sI)
      · exact Or.inr (nice_dot1 sG2 sI)
      · exact Or.inr (nice_dot1 sI sG2)
    · refine forall_mem_flat ?_
      intro d hd x hx
      simp only [List.mem_cons, List.not_mem_nil, or_false] at hx
      rcases hx with rfl | rfl
      · exact Or.inr (nice_app (nice_app sG2 sI)
          (nice_seg (h.dates_seg d hd)))
      · exact Or.inr (nice_app (nice_dot1 sG2 sI)
          (nice_seg (h.dates_seg d hd)))
    · intro x hx
      simp only [List.mem_cons, List.not_mem_nil, or_false] at hx
      rcases hx with rfl | rfl | rfl
      · exact Or.inr (nice_app sG2 sS)
      · exact Or.inr (nice_dot1 sG2 sS)
      · exact Or.inr (nice_dot1 sS sG2)
    · refine forall_mem_flat ?_
      intro d hd x hx
      simp only [List.mem_cons, List.not_mem_nil, or_false] at hx
      rcases hx with rfl | rfl
      · exact Or.inr (nice_app (nice_app sG2 sS)
          (nice_seg (h.dates_seg d hd)))
      · exact Or.inr (nice_app (nice_dot1 sG2 sS)
          (nice_seg (h.dates_seg d hd)))
  · -- TIER 7
    refine forall_mem_append2 ?_ ?_
    · intro x hx
      simp only [List.mem_cons, List.not_mem_nil, or_false] at hx
      rcases hx with rfl | rfl | rfl
      · exact Or.inr (nice_app sG sSI)
      · exact Or.inr (nice_dot1 sG sSI)
      · exact Or.inr (nice_dot1 sSI sG)
    · refine forall_mem_flat ?_
      intro d hd x hx
      simp only [List.mem_cons, List.not_mem_nil, or_false] at hx
      rcases hx with rfl | rfl
      · exact Or.inr (nice_app (nice_app sG sSI)
          (nice_seg (h.dates_seg d hd)))
      · exact Or.inr (nice_app (nice_dot1 sG sSI)
          (nice_seg (h.dates_seg d hd)))
  · -- TIER 8
    refine forall_mem_flat ?_
    intro d hd x hx
    simp only [List.mem_singleton] at hx
    subst hx
    exact Or.inr (nice_app sG (nice_seg (h.dates_seg d hd)))
  · -- TIER 9
    refine forall_mem_append2 ?_ ?_
    · intro x hx
      simp only [List.mem_cons, List.not_mem_nil, or_false] at hx
      rcases hx with rfl | rfl | rfl
      · exact Or.inr (nice_app sS sGI)
      · exact Or.inr sI
      · exact Or.inr (nice_dot1 sS sGI)
    · refine forall_mem_flat ?_
      intro d hd x hx
      simp only [List.mem_cons, List.not_mem_nil, or_false] at hx
      rcases hx with rfl | rfl
      · exact Or.inr (nice_app (nice_app sS sGI)
          (nice_seg (h.dates_seg d hd)))
      · exact Or.inr (nice_app sI (nice_seg (h.dates_seg d hd)))
  · -- TIER 10
    intro x hx
    simp only [List.mem_cons, List.not_mem_nil, or_false] at hx
    rcases hx with rfl | rfl
    · exact Or.inr (nice_app sS sG)
    · exact Or.inr (nice_app sG sS)
  · -- ALIAS2 block
    apply forall_mem_gate
    intro hA2
    have sA2 := nice_seg (h.a2_seg hA2)
    refine forall_mem_append2 ?_ ?_
    · intro x hx
      simp only [List.mem_cons, List.not_mem_nil, or_false] at hx
      rcases hx with rfl | rfl | rfl | rfl
      · exact Or.inr (nice_app sA2 sG)
      · exact Or.inr (nice_app sA2 sS)
      · exact Or.inr (nice_dot1 sG sA2)
      · by_cases hA : t.a ≠ []
        · rw [if_pos hA]
          exact Or.inr (nice_dot1 (nice_seg (h.a_seg hA)) sA2)
        · rw [if_neg hA]
          exact Or.inl rfl
    · refine forall_mem_flat ?_
      intro d hd x hx
      simp only [List.mem_cons, List.not_mem_nil, or_false] at hx
      rcases hx with rfl | rfl
      · exact Or.inr (nice_app sA2 (nice_seg (h.dates_seg d hd)))
      · exact Or.inr (nice_app (nice_app sA2 sG)
          (nice_seg (h.dates_seg d hd)))

theorem chineseExtra_nice {t : CnTokens} (h : CnDot t) :
    ∀ y ∈ chineseExtra t, y = [] ∨ Nice y := by
  have sS := nice_seg h.s_seg
  have sG := nice_seg h.g_seg
  have sSI := nice_seg h.si_seg
  have sGI := nice_seg h.gi_seg
  have sI := nice_seg h.isg_seg
  unfold chineseExtra
  refine forall_mem_append2 (forall_mem_append2 (forall_mem_append2
    (forall_mem_append2 ?_ ?_) ?_) ?_) ?_
  · apply forall_mem_gate
    intro hA
    have sA := nice_seg (h.a_seg hA)
    have sAI := nice_seg (h.ai_seg hA)
    refine forall_mem_append2 ?_ ?_
    · refine forall_mem_flat ?_
      intro d hd x hx
      have sD := nice_seg (h.dates_seg d hd)
      simp only [List.mem_cons, List.not_mem_nil, or_false] at hx
      rcases hx with rfl | rfl | rfl | rfl | rfl
      · exact Or.inr (nice_app (nice_app (nice_app sA sG) sSI) sD)
      · exact Or.inr (nice_app (nice_dot1 (nice_dot1 sA sG) sSI) sD)
      · exact Or.inr (nice_app (nice_app sAI sG) sD)
      · exact Or.inr (nice_app (nice_dot1 sAI sG) sD)
      · exact Or.inr (nice_app (nice_app sAI sI) sD)
    · intro x hx
      simp only [List.mem_cons, List.not_mem_nil, or_false] at hx
      rcases hx with rfl | rfl | rfl | rfl | rfl | rfl
      · exact Or.inr (nice_app sAI sG)
      · exact Or.inr (nice_dot1 sAI sG)
      · exact Or.inr (nice_app sAI sI)
      · exact Or.inr (nice_dot1 (nice_dot1 sA sS) sG)
      · exact Or.inr (nice_app sA sGI)
      · exact Or.inr (nice_dot1 sA sGI)
  · refine forall_mem_flat ?_
    intro d hd x hx
    have sD := nice_seg (h.dates_seg d hd)
    simp only [List.mem_cons, List.not_mem_nil, or_false] at hx
    rcases hx with rfl | rfl
    · exact Or.inr (nice_dot1 sG sD)
    · exact Or.inr (nice_dot1 (nice_dot1 sG sSI) sD)
  · intro x hx
    simp only [List.mem_cons, List.not_mem_nil, or_false] at hx
    rcases hx with rfl | rfl | rfl | rfl
    · exact Or.inr (nice_dot1 sS sG)
    · exact Or.inr (nice_dot1 sG sS)
    · exact Or.inr (nice_dot1 sS sI)
    · exact Or.inr (nice_dot1 sI sS)
  · apply forall_mem_gate
    intro hG2
    have sG2 := nice_seg (h.g2_seg hG2)
    refine forall_mem_append2 (forall_mem_append2 ?_ ?_) ?_
    · refine forall_mem_flat ?_
      intro d hd x hx
      have sD := nice_seg (h.dates_seg d hd)
      simp only [List.mem_cons, List.not_mem_nil, or_false] at hx
      rcases hx with rfl | rfl | rfl
      · exact Or.inr (nice_app (nice_app (nice_app sG2 sG) sSI) sD)
      · by_cases hA : t.a ≠ []
        · rw [if_pos hA]
          exact Or.inr (nice_app (nice_app (nice_seg (h.ai_seg hA)) sG2) sD)
        · rw [if_neg hA]
          exact Or.inl rfl
      · exact Or.inr (nice_dot1 (nice_dot1 sG2 sG) sSI)
    · intro x hx
      simp only [List.mem_cons, List.not_mem_nil, or_false] at hx
      rcases hx with rfl | rfl | rfl | rfl | rfl
      · exact Or.inr (nice_app (nice_dot1 sG2 sG) sSI)
      · exact Or.inr (nice_app sG2 sGI)
      · exact Or.inr (nice_dot1 sG2 sGI)
      · by_cases hA : t.a ≠ []
        · rw [if_pos hA]
          exact Or.inr (nice_app (nice_seg (h.ai_seg hA)) sG2)
        · rw [if_neg hA]
          exact Or.inl rfl
      · by_cases hA : t.a ≠ []
        · rw [if_pos hA]
          exact Or.inr (nice_dot1 (nice_seg (h.ai_seg hA)) sG2)
        · rw [if_neg hA]
          exact Or.inl rfl
    · apply forall_mem_gate
      intro hA
      have sA := nice_seg (h.a_seg hA)
      refine forall_mem_append2 ?_ ?_
      · intro x hx
        simp only [List.mem_cons, List.not_mem_nil, or_false] at hx
        rcases hx with rfl | rfl
        · exact Or.inr (nice_app sA sG2)
        · exact Or.inr (nice_dot1 sA sG2)
      · refine forall_mem_flat ?_
        intro d hd x hx
        have sD := nice_seg (h.dates_seg d hd)
        simp only [List.mem_cons, List.not_mem_nil, or_false] at hx
        rcases hx with rfl | rfl | rfl
        · exact Or.inr (nice_app (nice_app sA sG2) sD)
        · exact Or.inr (nice_app (nice_dot1 sA sG2) sD)
        · exact Or.inr (nice_app (nice_app (nice_app sA sG2) sSI) sD)
  · apply forall_mem_gate
    intro hA2
    have sA2 := nice_seg (h.a2_seg hA2)
    refine forall_mem_append2 ?_ ?_
    · refine forall_mem_flat ?_
      intro d hd x hx
      have sD := nice_seg (h.dates_seg d hd)
      simp only [List.mem_cons, List.not_mem_nil, or_false] at hx
      rcases hx with rfl | rfl | rfl
      · exact Or.inr (nice_app sA2 sD)
      · exact Or.inr (nice_dot1 sA2 sD)
      · exact Or.inr (nice_app (nice_app sA2 sG) sD)
    · intro x hx
      simp only [List.mem_cons, List.not_mem_nil, or_false] at hx
      rcases hx with rfl | rfl | rfl
      · exact Or.inr (nice_dot1 sA2 sG)
      · exact Or.inr (nice_dot1 sA2 sS)
      · exact Or.inr (nice_app sA2 sI)

theorem chineseCombos_nice {t : CnTokens} (h : CnDot t) (full : Bool) :
    ∀ y ∈ chineseCombos t full, y = [] ∨ Nice y := by
  unfold chineseCombos
  refine forall_mem_append2 (chineseBase_nice h) ?_
  cases full
  · simp
  · simpa using chineseExtra_nice h

theorem westernBase_nice {t : WTokens} (h : WDot t) :
    ∀ y ∈ westernBase t, y = [] ∨ Nice y := by
  have sF := nice_seg h.f_seg
  have sL := nice_seg h.l_seg
  have sFI := nice_seg h.fi_seg
  have sLI := nice_seg h.li_seg
  have sFL := nice_seg h.ifl_seg
  have sFML := nice_seg h.ifml_seg
  unfold westernBase
  refine forall_mem_append2 (forall_mem_append2 (forall_mem_append2
    (forall_mem_append2 (forall_mem_append2 (forall_mem_append2
    (forall_mem_append2 (forall_mem_append2 (forall_mem_append2
    (forall_mem_append2 (forall_mem_append2 (forall_mem_append2
    (forall_mem_append2 (forall_mem_append2 (forall_mem_append2
    (forall_mem_append2 (forall_mem_append2 (forall_mem_append2
    ?_ ?_) ?_) ?_) ?_) ?_) ?_) ?_) ?_) ?_) ?_) ?_) ?_) ?_) ?_) ?_) ?_) ?_) ?_
  · -- plain name
    intro x hx
    simp only [List.mem_cons, List.not_mem_nil, or_false] at hx
    rcases hx with rfl | rfl
    · exact Or.inr (nice_app sF sL)
    · exact Or.inr (nice_app sL sF)
  · -- plain name with middle
    apply forall_mem_gate
    intro hM
    have sM := nice_seg (h.m_seg hM)
    have sMI := nice_seg (h.mi_seg hM)
    have sML := nice_seg (h.ml_seg hM)
    intro x hx
    simp only [List.mem_cons, List.not_mem_nil, or_false] at hx
    rcases hx with rfl | rfl
    · exact Or.inr (nice_app (nice_app sF sMI) sL)
    · exact Or.inr sML
  · -- short combos
    intro x hx
    simp only [List.mem_cons, List.not_mem_nil, or_false] at hx
    rcases hx with rfl | rfl | rfl | rfl | rfl
    · exact Or.inr (nice_app sF sLI)
    · exact Or.inr (nice_app sFI sL)
    · exact Or.inr (nice_dot1 sF sLI)
    · exact Or.inr (nice_dot1 sFI sL)
    · exact Or.inr (nice_dot1 sLI sF)
  · -- short combos with middle
    apply forall_mem_gate
    intro hM
    have sM := nice_seg (h.m_seg hM)
    have sMI := nice_seg (h.mi_seg hM)
    intro x hx
    simp only [List.mem_cons, List.not_mem_nil, or_false] at hx
    rcases hx with rfl | rfl | rfl | rfl | rfl
    · exact Or.inr (nice_app sF sMI)
    · exact Or.inr (nice_dot1 sF sMI)
    · exact Or.inr (nice_dot1 sFI sM)
    · exact Or.inr (nice_dot1 (nice_app sFI sMI) sL)
    · exact Or.inr (nice_dot1 (nice_app sF sMI) sLI)
  · -- alias combos
    apply forall_mem_gate
    intro hA
    have sA := nice_seg (h.a_seg hA)
    have sAI := nice_seg (h.ai_seg hA)
    refine forall_mem_append2 ?_ ?_
    · intro x hx
      simp only [List.mem_cons, List.not_mem_nil, or_false] at hx
      rcases hx with rfl | rfl | rfl | rfl | rfl | rfl | rfl | rfl | rfl |
        rfl | rfl | rfl | rfl | rfl
      · exact Or.inr (nice_app sA sF)
      · exact Or.inr (nice_app sF sA)
      · exact Or.inr (nice_app sA sL)
      · exact Or.inr (nice_app sL sA)
      · exact Or.inr (nice_app sA sFI)
      · exact Or.inr (nice_app sAI sF)
      · exact Or.inr (nice_app sA sLI)
      · exact Or.inr (nice_app sAI sL)
      · exact Or.inr (nice_dot1 sA sFI)
      · exact Or.inr (nice_dot1 sAI sF)
      · exact Or.inr (nice_dot1 sA sLI)
      · exact Or.inr (nice_dot1 sAI sL)
      · exact Or.inr (nice_dot1 sLI sA)
      · exact Or.inr (nice_dot1 sFI sA)
    · apply forall_mem_gate
      intro hM
      intro x hx
      simp only [List.mem_singleton] at hx
      subst hx
      exact Or.inr (nice_app sA sFML)
  · -- alias + date
    apply forall_mem_gate
    intro hA
    have sA := nice_seg (h.a_seg hA)
    refine forall_mem_append2 ?_ ?_
    · refine forall_mem_flat ?_
      intro d hd x hx
      simp only [List.mem_singleton] at hx
      subst hx
      exact Or.inr (nice_app sA (nice_seg (h.dates_seg d hd)))
    · apply forall_mem_gate
      intro hflip x hx
      simp only [List.mem_singleton] at hx
      subst hx
      exact Or.inr (nice_app (nice_app sA (nice_seg (h.dy2_seg hflip.1)))
        (nice_seg (h.yr2_seg hflip.2)))
  · -- initials
    intro x hx
    simp only [List.mem_cons, List.not_mem_nil, or_false] at hx
    rcases hx with rfl | rfl | rfl
    · exact Or.inr sFML
    · exact Or.inr (nice_dot1 sFML sL)
    · exact Or.inr (nice_dot1 sF sFML)
  · -- initials + date
    refine forall_mem_flat ?_
    intro d hd x hx
    have sD := nice_seg (h.dates_seg d hd)
    simp only [List.mem_cons, List.not_mem_nil, or_false] at hx
    rcases hx with rfl | rfl
    · exact Or.inr (nice_app sFML sD)
    · exact Or.inr (nice_app sFL sD)
  · -- ai + fml
    apply forall_mem_gate
    intro hA
    intro x hx
    simp only [List.mem_singleton] at hx
    subst hx
    exact Or.inr (nice_app (nice_seg (h.ai_seg hA)) sFML)
  · -- alias + init_fl
    apply forall_mem_gate
    intro hA
    have sA := nice_seg (h.a_seg hA)
    refine forall_mem_append2 ?_ ?_
    · intro x hx
      simp only [List.mem_cons, List.not_mem_nil, or_false] at hx
      rcases hx with rfl | rfl | rfl
      · exact Or.inr (nice_app sA sFL)
      · exact Or.inr (nice_dot1 sA sFL)
      · exact Or.inr (nice_dot1 sFL sA)
    · refine forall_mem_flat ?_
      intro d hd x hx
      have sD := nice_seg (h.dates_seg d hd)
      simp only [List.mem_cons, List.not_mem_nil, or_false] at hx
      rcases hx with rfl | rfl
      · exact Or.inr (nice_app (nice_app sA sFL) sD)
      · exact Or.inr (nice_app (nice_dot1 sA sFL) sD)
  · -- alias + last + date
    apply forall_mem_gate
    intro hA
    have sA := nice_seg (h.a_seg hA)
    refine forall_mem_flat ?_
    intro d hd x hx
    have sD := nice_seg (h.dates_seg d hd)
    simp only [List.mem_cons, List.not_mem_nil, or_false] at hx
    rcases hx with rfl | rfl
    · exact Or.inr (nice_app (nice_app sA sL) sD)
    · exact Or.inr (nice_app (nice_dot1 sA sL) sD)
  · -- date + name
    refine forall_mem_flat ?_
    intro d hd x hx
    have sD := nice_seg (h.dates_seg d hd)
    simp only [List.mem_cons, List.not_mem_nil, or_false] at hx
    rcases hx with rfl | rfl
    · exact Or.inr (nice_app sF sD)
    · exact Or.inr (nice_app sL sD)
  · -- alias + first + date
    apply forall_mem_gate
    intro hA
    have sA := nice_seg (h.a_seg hA)
    refine forall_mem_flat ?_
    intro d hd x hx
    have sD := nice_seg (h.dates_seg d hd)
    simp only [List.mem_cons, List.not_mem_nil, or_false] at hx
    rcases hx with rfl | rfl | rfl
    · exact Or.inr (nice_app (nice_app sA sF) sD)
    · exact Or.inr (nice_app (nice_dot1 sA sF) sD)
    · exact Or.inr (nice_app (nice_app sA sFML) sD)
  · -- ml + md
    apply forall_mem_gate
    intro hMD
    apply forall_mem_gate
    intro hM
    have sML := nice_seg (h.ml_seg hM)
    intro x hx
    simp only [List.mem_cons, List.not_mem_nil, or_false] at hx
    rcases hx with rfl | rfl
    · exact Or.inr (nice_app sML (nice_seg (h.md_seg hMD)))
    · exact Or.inr (nice_app sML (nice_seg (h.mddy2_seg hMD)))
  · -- separator variants
    intro x hx
    simp only [List.mem_cons, List.not_mem_nil, or_false] at hx
    rcases hx with rfl | rfl
    · exact Or.inr (nice_dot1 sF sL)
    · exact Or.inr (nice_dot1 sL sF)
  · -- separator variants with middle
    apply forall_mem_gate
    intro hM
    have sMI := nice_seg (h.mi_seg hM)
    intro x hx
    simp only [List.mem_cons, List.not_mem_nil, or_false] at hx
    rcases hx with rfl | rfl
    · exact Or.inr (nice_dot1 (nice_dot1 sF sMI) sL)
    · exact Or.inr (nice_dot1 (nice_dot1 sFI sMI) sL)
  · -- alias dot combos
    apply forall_mem_gate
    intro hA
    have sA := nice_seg (h.a_seg hA)
    refine forall_mem_append2 (forall_mem_append2 ?_ ?_) ?_
    · intro x hx
      simp only [List.mem_cons, List.not_mem_nil, or_false] at hx
      rcases hx with rfl | rfl | rfl | rfl | rfl | rfl
      · exact Or.inr (nice_dot1 sA sF)
      · exact Or.inr (nice_dot1 sF sA)
      · exact Or.inr (nice_dot1 sA sL)
      · exact Or.inr (nice_dot1 sL sA)
      · exact Or.inr (nice_dot1 sA sFML)
      · exact Or.inr (nice_dot1 sFML sA)
    · refine forall_mem_flat ?_
      intro d hd x hx
      simp only [List.mem_singleton] at hx
      subst hx
      exact Or.inr (nice_app (nice_dot1 sA sFML)
        (nice_seg (h.dates_seg d hd)))
    · apply forall_mem_gate
      intro hM
      have sMI := nice_seg (h.mi_seg hM)
      intro x hx
      simp only [List.mem_cons, List.not_mem_nil, or_false] at hx
      rcases hx with rfl | rfl
      · exact Or.inr (nice_app (nice_app (nice_app sA sF) sMI) sLI)
      · exact Or.inr (nice_app (nice_app (nice_app sA sFI) sLI) sF)
  · -- first + alias combos
    apply forall_mem_gate
    intro hA
    have sA := nice_seg (h.a_seg hA)
    have sAI := nice_seg (h.ai_seg hA)
    refine forall_mem_append2 (forall_mem_append2 (forall_mem_append2
      ?_ ?_) ?_) ?_
    · intro x hx
      simp only [List.mem_cons, List.not_mem_nil, or_false] at hx
      rcases hx with rfl | rfl | rfl | rfl
      · exact Or.inr (nice_app (nice_app sF sA) sL)
      · exact Or.inr (nice_dot1 (nice_dot1 sF sA) sL)
      · exact Or.inr (nice_app (nice_app sF sA) sLI)
      · exact Or.inr (nice_app (nice_dot1 sF sA) sLI)
    · refine forall_mem_flat ?_
      intro d hd x hx
      have sD := nice_seg (h.dates_seg d hd)
      simp only [List.mem_cons, List.not_mem_nil, or_false] at hx
      rcases hx with rfl | rfl | rfl
      · exact Or.inr (nice_app (nice_app sF sA) sD)
      · exact Or.inr (nice_app (nice_dot1 sF sA) sD)
      · exact Or.inr (nice_app (nice_app (nice_app sF sA) sLI) sD)
    · intro x hx
      simp only [List.mem_cons, List.not_mem_nil, or_false] at hx
      rcases hx with rfl | rfl
      · exact Or.inr (nice_app sF sAI)
      · exact Or.inr (nice_dot1 sF sAI)
    · refine forall_mem_flat ?_
      intro d hd x hx
      have sD := nice_seg (h.dates_seg d hd)
      simp only [List.mem_cons, List.not_mem_nil, or_false] at hx
      rcases hx with rfl | rfl
      · exact Or.inr (nice_app (nice_app sF sAI) sD)
      · exact Or.inr (nice_app (nice_dot1 sF sAI) sD)
  · -- alias2 block
    apply forall_mem_gate
    intro hA2
    have sA2 := nice_seg (h.a2_seg hA2)
    refine forall_mem_flat ?_
    intro sep hsep
    simp only [seps, List.mem_cons, List.not_mem_nil, or_false] at hsep
    intro x hx
    simp only [List.mem_cons, List.not_mem_nil, or_false] at hx
    rcases hsep with rfl | rfl
    · rcases hx with rfl | rfl | rfl | rfl | rfl | rfl
      · exact Or.inr (by rw [List.append_nil]; exact nice_app sA2 sF)
      · exact Or.inr (by rw [List.append_nil]; exact nice_app sA2 sL)
      · exact Or.inr (by rw [List.append_nil]; exact nice_app sF sA2)
      · by_cases hA : t.a ≠ []
        · rw [if_pos hA]
          exact Or.inr (by
            rw [List.append_nil]
            exact nice_app sA2 (nice_seg (h.a_seg hA)))
        · rw [if_neg hA]
          exact Or.inl rfl
      · by_cases hA : t.a ≠ []
        · rw [if_pos hA]
          exact Or.inr (by
            rw [List.append_nil]
            exact nice_app (nice_seg (h.a_seg hA)) sA2)
        · rw [if_neg hA]
          exact Or.inl rfl
      · exact Or.inr (by rw [List.append_nil]; exact nice_app sA2 sFML)
    · rcases hx with rfl | rfl | rfl | rfl | rfl | rfl
      · exact Or.inr (nice_dot1 sA2 sF)
      · exact Or.inr (nice_dot1 sA2 sL)
      · exact Or.inr (nice_dot1 sF sA2)
      · by_cases hA : t.a ≠ []
        · rw [if_pos hA]
          exact Or.inr (nice_dot1 sA2 (nice_seg (h.a_seg hA)))
        · rw [if_neg hA]
          exact Or.inl rfl
      · by_cases hA : t.a ≠ []
        · rw [if_pos hA]
          exact Or.inr (nice_dot1 (nice_seg (h.a_seg hA)) sA2)
        · rw [if_neg hA]
          exact Or.inl rfl
      · exact Or.inr (nice_dot1 sA2 sFML)

theorem westernExtra_nice {t : WTokens} (h : WDot t) :
    ∀ y ∈ westernExtra t, y = [] ∨ Nice y := by
  have sF := nice_seg h.f_seg
  have sL := nice_seg h.l_seg
  have sFI := nice_seg h.fi_seg
  have sLI := nice_seg h.li_seg
  have sFL := nice_seg h.ifl_seg
  have sFML := nice_seg h.ifml_seg
  unfold westernExtra
  refine forall_mem_append2 (forall_mem_append2 (forall_mem_append2
    (forall_mem_append2 ?_ ?_) ?_) ?_) ?_
  · -- cores × dates
    refine forall_mem_flat ?_
    intro nm hnm
    simp only [List.mem_filter, List.mem_cons, List.not_mem_nil, or_false,
      decide_eq_true_eq] at hnm
    obtain ⟨hmem, hne⟩ := hnm
    have sNM : Nice nm := by
      rcases hmem with rfl | rfl | rfl | rfl | rfl | rfl | rfl
      · exact sF
      · exact sL
      · exact nice_seg (h.a_seg hne)
      · exact nice_seg (h.a2_seg hne)
      · exact sFML
      · exact sFL
      · exact nice_seg (h.ml_self hne)
    refine forall_mem_flat ?_
    intro d hd x hx
    have sD := nice_seg (h.dates_seg d hd)
    simp only [List.mem_cons, List.not_mem_nil, or_false] at hx
    rcases hx with rfl | rfl
    · exact Or.inr (nice_app sNM sD)
    · exact Or.inr (nice_dot1 sNM sD)
  · -- alias2 repeat
    apply forall_mem_gate
    intro hA2
    have sA2 := nice_seg (h.a2_seg hA2)
    refine forall_mem_append2 ?_ ?_
    · refine forall_mem_flat ?_
      intro sep hsep
      simp only [seps, List.mem_cons, List.not_mem_nil, or_false] at hsep
      intro x hx
      simp only [List.mem_cons, List.not_mem_nil, or_false] at hx
      rcases hsep with rfl | rfl
      · rcases hx with rfl | rfl | rfl | rfl | rfl | rfl
        · exact Or.inr (by rw [List.append_nil]; exact nice_app sA2 sF)
        · exact Or.inr (by rw [List.append_nil]; exact nice_app sA2 sL)
        · exact Or.inr (by rw [List.append_nil]; exact nice_app sF sA2)
        · by_cases hA : t.a ≠ []
          · rw [if_pos hA]
            exact Or.inr (by
              rw [List.append_nil]
              exact nice_app sA2 (nice_seg (h.a_seg hA)))
          · rw [if_neg hA]
            exact Or.inl rfl
        · by_cases hA : t.a ≠ []
          · rw [if_pos hA]
            exact Or.inr (by
              rw [List.append_nil]
              exact nice_app (nice_seg (h.a_seg hA)) sA2)
          · rw [if_neg hA]
            exact Or.inl rfl
        · exact Or.inr (by rw [List.append_nil]; exact nice_app sA2 sFML)
      · rcases hx with rfl | rfl | rfl | rfl | rfl | rfl
        · exact Or.inr (nice_dot1 sA2 sF)
        · exact Or.inr (nice_dot1 sA2 sL)
        · exact Or.inr (nice_dot1 sF sA2)
        · by_cases hA : t.a ≠ []
          · rw [if_pos hA]
            exact Or.inr (nice_dot1 sA2 (nice_seg (h.a_seg hA)))
          · rw [if_neg hA]
            exact Or.inl rfl
        · by_cases hA : t.a ≠ []
          · rw [if_pos hA]
            exact Or.inr (nice_dot1 (nice_seg (h.a_seg hA)) sA2)
          · rw [if_neg hA]
            exact Or.inl rfl
        · exact Or.inr (nice_dot1 sA2 sFML)
    · refine forall_mem_flat ?_
      intro d hd x hx
      have sD := nice_seg (h.dates_seg d hd)
      simp only [List.mem_cons, List.not_mem_nil, or_false] at hx
      rcases hx with rfl | rfl
      · exact Or.inr (nice_app sA2 sD)
      · exact Or.inr (nice_dot1 sA2 sD)
  · -- middle extras
    apply forall_mem_gate
    intro hM
    have sMI := nice_seg (h.mi_seg hM)
    intro x hx
    simp only [List.mem_cons, List.not_mem_nil, or_false] at hx
    rcases hx with rfl | rfl
    · exact Or.inr (nice_app (nice_dot1 sF sMI) sLI)
    · exact Or.inr (nice_dot1 (nice_app sFI sMI) sL)
  · -- alias extras
    apply forall_mem_gate
    intro hA
    have sA := nice_seg (h.a_seg hA)
    have sAI := nice_seg (h.ai_seg hA)
    refine forall_mem_append2 ?_ ?_
    · intro x hx
      simp only [List.mem_cons, List.not_mem_nil, or_false] at hx
      rcases hx with rfl | rfl | rfl
      · exact Or.inr (nice_app (nice_dot1 sAI sF) sL)
      · exact Or.inr (nice_app (nice_dot1 sA sF) sL)
      · exact Or.inr (nice_dot1 (nice_app sAI sF) sL)
    · refine forall_mem_flat ?_
      intro d hd x hx
      have sD := nice_seg (h.dates_seg d hd)
      simp only [List.mem_cons, List.not_mem_nil, or_false] at hx
      rcases hx with rfl | rfl
      · exact Or.inr (nice_dot1 (nice_dot1 sF sA) sD)
      · exact Or.inr (nice_app (nice_app (nice_app sF sA) sFL) sD)
  · -- alias + middle extra
    apply forall_mem_gate
    intro hAM
    intro x hx
    simp only [List.mem_singleton] at hx
    subst hx
    by_cases hMD : t.md ≠ []
    · rw [if_pos hMD]
      exact Or.inr (nice_app (nice_dot1 (nice_seg (h.a_seg hAM.1)) sFML)
        (nice_seg (h.md_seg hMD)))
    · rw [if_neg hMD]
      exact Or.inl rfl

theorem westernCombos_nice {t : WTokens} (h : WDot t) (full : Bool) :
    ∀ y ∈ westernCombos t full, y = [] ∨ Nice y := by
  unfold westernCombos
  refine forall_mem_append2 (westernBase_nice h) ?_
  cases full
  · simp
  · simpa using westernExtra_nice h

theorem toLower_eq_dot {c : Char} (h : Char.toLower c = '.') : c = '.' := by
  simp only [Char.toLower] at h
  split at h
  · exfalso
    rename_i hin
    obtain ⟨h1, h2⟩ := hin
    obtain ⟨n, hn⟩ : ∃ n, Char.toNat c = n := ⟨_, rfl⟩
    rw [hn] at h h1 h2
    interval_cases n <;> exact absurd h (by decide)
  · exact h

theorem toLower_not_ws {c : Char} (h : c.isWhitespace = false) :
    (Char.toLower c).isWhitespace = false := by
  simp only [Char.toLower]
  split
  · rename_i hin
    obtain ⟨h1, h2⟩ := hin
    obtain ⟨n, hn⟩ : ∃ n, Char.toNat c = n := ⟨_, rfl⟩
    rw [hn] at h1 h2 ⊢
    interval_cases n <;> decide
  · exact h

theorem dropWhile_head_false {p : Char → Bool} {l : List Char} {c : Char}
    (h : (l.dropWhile p).head? = some c) : p c = false := by
  induction l with
  | nil => simp at h
  | cons d l' ih =>
    by_cases hd : p d = true
    · rw [List.dropWhile_cons_of_pos hd] at h
      exact ih h
    · rw [List.dropWhile_cons_of_neg hd] at h
      rw [List.head?_cons, Option.some.injEq] at h
      subst h
      exact Bool.eq_false_iff.mpr hd

theorem dropWhile_suffix (p : Char → Bool) (l : List Char) :
    (l.dropWhile p).IsSuffix l := by
  induction l with
  | nil => simp
  | cons d l' ih =>
    by_cases hd : p d = true
    · rw [List.dropWhile_cons_of_pos hd]
      exact ih.trans (List.suffix_cons d l')
    · rw [List.dropWhile_cons_of_neg hd]

theorem stripChars_head_ws {l : List Char} {c : Char}
    (h : (stripChars l).head? = some c) : c.isWhitespace = false := by
  rw [stripChars, List.head?_reverse] at h
  obtain ⟨pre, hpre⟩ :=
    dropWhile_suffix Char.isWhitespace (l.dropWhile Char.isWhitespace).reverse
  have hsome : ((l.dropWhile Char.isWhitespace).reverse.dropWhile
      Char.isWhitespace).getLast?.isSome := by
    rw [h]; rfl
  have hlast : (l.dropWhile Char.isWhitespace).reverse.getLast? = some c := by
    rw [← hpre, List.getLast?_append, Option.or_of_isSome hsome]
    exact h
  rw [List.getLast?_reverse] at hlast
  exact dropWhile_head_false hlast

theorem stripChars_getLast_ws {l : List Char} {c : Char}
    (h : (stripChars l).getLast? = some c) : c.isWhitespace = false := by
  rw [stripChars, List.getLast?_reverse] at h
  exact dropWhile_head_false h

theorem stripChars_eq_self {l : List Char}
    (hh : ∀ c, l.head? = some c → c.isWhitespace = false)
    (hl : ∀ c, l.getLast? = some c → c.isWhitespace = false) :
    stripChars l = l := by
  have hdrop : ∀ m : List Char,
      (∀ c, m.head? = some c → c.isWhitespace = false) →
      m.dropWhile Char.isWhitespace = m := by
    intro m hm
    cases m with
    | nil => rfl
    | cons c cs =>
      rw [List.dropWhile_cons_of_neg]
      simp [hm c rfl]
  rw [stripChars, hdrop _ hh, hdrop, List.reverse_reverse]
  intro c hc
  rw [List.head?_reverse] at hc
  exact hl c hc

theorem mem_stripChars {c : Char} {l : List Char} (h : c ∈ stripChars l) :
    c ∈ l := by
  rw [stripChars, List.mem_reverse] at h
  have h2 := (List.dropWhile_sublist Char.isWhitespace).subset h
  rw [List.mem_reverse] at h2
  exact (List.dropWhile_sublist Char.isWhitespace).subset h2

theorem mem_low {c : Char} {l : List Char} (h : c ∈ low l) :
    ∃ c0 ∈ l, c = Char.toLower c0 := by
  simp only [low, List.mem_map] at h
  obtain ⟨c0, hc0, heq⟩ := h
  exact ⟨c0, hc0, heq.symm⟩

theorem SegP_of_noWs {tk : List Char} (hne : tk ≠ [])
    (hdot : ∀ c ∈ tk, c ≠ '.') (hws : noWs tk) : SegP tk :=
  ⟨hne, hdot,
    fun c hc => hws c (List.mem_of_mem_head? (by rw [hc]; rfl)),
    fun c hc => hws c (List.mem_of_getLast?_eq_some hc)⟩

theorem SegP_low_strip {fld : List Char} (hne : stripChars fld ≠ [])
    (hdot : ∀ c ∈ fld, c ≠ '.') : SegP (low (stripChars fld)) := by
  refine ⟨?_, ?_, ?_, ?_⟩
  · simp only [low, ne_eq, List.map_eq_nil_iff]
    exact hne
  · intro c hc
    obtain ⟨c0, hc0, rfl⟩ := mem_low hc
    intro hde
    exact hdot c0 (mem_stripChars hc0) (toLower_eq_dot hde)
  · intro c hc
    rw [low, List.head?_map] at hc
    cases hX : (stripChars fld).head? with
    | none => rw [hX] at hc; simp at hc
    | some c0 =>
      rw [hX] at hc
      simp only [Option.map_some'] at hc
      rw [Option.some.injEq] at hc
      subst hc
      exact toLower_not_ws (stripChars_head_ws hX)
  · intro c hc
    rw [low, List.getLast?_map] at hc
    cases hX : (stripChars fld).getLast? with
    | none => rw [hX] at hc; simp at hc
    | some c0 =>
      rw [hX] at hc
      simp only [Option.map_some'] at hc
      rw [Option.some.injEq] at hc
      subst hc
      exact toLower_not_ws (stripChars_getLast_ws hX)

theorem SegP_ini {tk : List Char} (h : SegP tk) : SegP (ini tk) := by
  obtain ⟨hne, hdot, hh, hl⟩ := h
  cases tk with
  | nil => exact absurd rfl hne
  | cons c tk' =>
    refine ⟨by simp [ini], ?_, ?_, ?_⟩
    · intro c' hc'
      simp only [ini, List.mem_singleton] at hc'
      subst hc'
      intro hde
      exact hdot c (List.mem_cons_self _ _) (toLower_eq_dot hde)
    · intro c' hc'
      simp only [ini, List.head?_cons, Option.some.injEq] at hc'
      subst hc'
      exact toLower_not_ws (hh c rfl)
    · intro c' hc'
      simp only [ini, List.getLast?_singleton, Option.some.injEq] at hc'
      subst hc'
      exact toLower_not_ws (hh c rfl)

theorem SegP_append {u v : List Char} (hu : SegP u) (hv : SegP v) :
    SegP (u ++ v) := by
  obtain ⟨hune, hud, huh, hul⟩ := hu
  obtain ⟨hvne, hvd, hvh, hvl⟩ := hv
  refine ⟨by simp [hune], ?_, ?_, ?_⟩
  · intro c hc
    rcases List.mem_append.mp hc with hm | hm
    · exact hud c hm
    · exact hvd c hm
  · intro c hc
    cases u with
    | nil => exact absurd rfl hune
    | cons d u' =>
      rw [List.cons_append, List.head?_cons, Option.some.injEq] at hc
      subst hc
      exact huh d rfl
  · intro c hc
    rw [List.getLast?_append] at hc
    have hsome : v.getLast?.isSome := by
      rw [List.getLast?_isSome]
      exact hvne
    rw [Option.or_of_isSome hsome] at hc
    exact hvl c hc

theorem splitPred_part_mem {p : Char → Bool} {l part : List Char} {c : Char}
    (hpart : part ∈ splitPred p l) (hc : c ∈ part) :
    c ∈ l ∧ p c = false := by
  induction l generalizing part with
  | nil =>
    simp only [splitPred, List.mem_singleton] at hpart
    subst hpart
    simp at hc
  | cons c0 rest ih =>
    rw [splitPred] at hpart
    cases hsp : splitPred p rest with
    | nil =>
      rw [hsp] at hpart
      simp only [List.mem_singleton] at hpart
      subst hpart
      simp at hc
    | cons hh tt =>
      rw [hsp] at hpart
      dsimp only at hpart
      by_cases hp0 : p c0 = true
      · rw [if_pos hp0] at hpart
        rcases List.mem_cons.mp hpart with rfl | hmem
        · simp at hc
        · have := ih (hsp ▸ hmem) hc
          exact ⟨List.mem_cons_of_mem _ this.1, this.2⟩
      · rw [if_neg hp0] at hpart
        rcases List.mem_cons.mp hpart with rfl | hmem
        · rcases List.mem_cons.mp hc with rfl | hch
          · exact ⟨List.mem_cons_self _ _, Bool.eq_false_iff.mpr hp0⟩
          · have := @ih hh (hsp ▸ (List.mem_cons_self hh tt)) hch
            exact ⟨List.mem_cons_of_mem _ this.1, this.2⟩
        · have := ih (hsp ▸ (List.mem_cons_of_mem hh hmem))
          exact ⟨List.mem_cons_of_mem _ (this hc).1, (this hc).2⟩

theorem splitPred_covers {p : Char → Bool} {l : List Char} {c : Char}
    (hc : c ∈ l) (hpc : p c = false) :
    ∃ part ∈ splitPred p l, c ∈ part := by
  induction l with
  | nil => simp at hc
  | cons c0 rest ih =>
    rw [splitPred]
    cases hsp : splitPred p rest with
    | nil =>
      exfalso
      cases rest with
      | nil => simp [splitPred] at hsp
      | cons d r' =>
        rw [splitPred] at hsp
        cases h2 : splitPred p r' with
        | nil => rw [h2] at hsp; simp at hsp
        | cons u v =>
          rw [h2] at hsp
          dsimp only at hsp
          by_cases hpd : p d = true
          · rw [if_pos hpd] at hsp; simp at hsp
          · rw [if_neg hpd] at hsp; simp at hsp
    | cons hh tt =>
      dsimp only
      rcases List.mem_cons.mp hc with rfl | hcr
      · rw [if_neg (by simp [hpc])]
        exact ⟨c :: hh, List.mem_cons_self _ _, List.mem_cons_self _ _⟩
      · obtain ⟨part, hpmem, hcp⟩ := ih hcr
        rw [hsp] at hpmem
        by_cases hp0 : p c0 = true
        · rw [if_pos hp0]
          exact ⟨part, List.mem_cons_of_mem _ hpmem, hcp⟩
        · rw [if_neg hp0]
          rcases List.mem_cons.mp hpmem with rfl | hpt
          · exact ⟨c0 :: part, List.mem_cons_self _ _,
              List.mem_cons_of_mem _ hcp⟩
          · exact ⟨part, List.mem_cons_of_mem _ hpt, hcp⟩

theorem mem_takeRight {c : Char} {l : List Char} {n : Nat}
    (h : c ∈ takeRight l n) : c ∈ l :=
  (List.drop_sublist _ _).subset h

theorem mem_zfill2 {c : Char} {p : List Char} (h : c ∈ zfill2 p) :
    c = '0' ∨ c ∈ p := by
  match p with
  | [] =>
    simp only [zfill2, List.mem_cons, List.not_mem_nil, or_false] at h
    rcases h with rfl | rfl
    · exact Or.inl rfl
    · exact Or.inl rfl
  | [c0] =>
    simp only [zfill2] at h
    split at h <;>
      simp only [List.mem_cons, List.not_mem_nil, or_false] at h
    · rcases h with rfl | rfl
      · exact Or.inr (List.mem_cons_self _ _)
      · exact Or.inl rfl
    · rcases h with rfl | rfl
      · exact Or.inl rfl
      · exact Or.inr (List.mem_cons_self _ _)
  | c0 :: c1 :: rest =>
    exact Or.inr h

theorem replaceDash_mem {c : Char} {l : List Char} (h : c ∈ replaceDash l)
    (hne : c ≠ '/') : c ∈ l := by
  simp only [replaceDash, List.mem_map] at h
  obtain ⟨c0, hc0, heq⟩ := h
  by_cases hd : c0 = '-'
  · rw [if_pos hd] at heq
    exact absurd heq.symm hne
  · rw [if_neg hd] at heq
    rw [← heq]
    exact hc0

theorem part_chars {dob p1 p2 p3 : List Char}
    (h : splitOnChar '/' (replaceDash (stripChars dob)) = [p1, p2, p3]) :
    (∀ c ∈ p1, c ∈ dob) ∧ (∀ c ∈ p2, c ∈ dob) ∧ (∀ c ∈ p3, c ∈ dob) := by
  have key : ∀ part ∈ splitOnChar '/' (replaceDash (stripChars dob)),
      ∀ c ∈ part, c ∈ dob := by
    intro part hp c hc
    have := splitPred_part_mem hp hc
    have hslash : c ≠ '/' := by
      intro hc'
      subst hc'
      simp at this
    exact mem_stripChars (replaceDash_mem this.1 hslash)
  rw [h] at key
  exact ⟨key p1 (by simp), key p2 (by simp), key p3 (by simp)⟩

theorem datesOf_chars {year dob d : List Char} (hd : d ∈ datesOf year dob) :
    d ≠ [] ∧ ∀ c ∈ d, c = '0' ∨ c ∈ year ∨ c ∈ dob := by
  rw [datesOf, List.mem_filter] at hd
  obtain ⟨hmem, hne'⟩ := hd
  have hne : d ≠ [] := by simpa using hne'
  refine ⟨hne, ?_⟩
  have hyr : ∀ c ∈ takeRight (stripChars year) 4, c ∈ year := by
    intro c hc
    exact mem_stripChars (mem_takeRight hc)
  by_cases h3 : ∃ p1 p2 p3,
      splitOnChar '/' (replaceDash (stripChars dob)) = [p1, p2, p3]
  · obtain ⟨p1, p2, p3, h⟩ := h3
    obtain ⟨hc1, hc2, hc3⟩ := part_chars h
    rw [parse_dates_of_three year h] at hmem
    simp only [List.mem_cons, List.not_mem_nil, or_false] at hmem
    have hmo : ∀ c ∈ zfill2 p2, c = '0' ∨ c ∈ dob := by
      intro c hc
      rcases mem_zfill2 hc with rfl | hm
      · exact Or.inl rfl
      · exact Or.inr (hc2 c hm)
    have hdy : ∀ c ∈ zfill2 p3, c = '0' ∨ c ∈ dob := by
      intro c hc
      rcases mem_zfill2 hc with rfl | hm
      · exact Or.inl rfl
      · exact Or.inr (hc3 c hm)
    have hyr4 : ∀ c ∈ (if takeRight (stripChars year) 4 = [] then p1
        else takeRight (stripChars year) 4), c ∈ year ∨ c ∈ dob := by
      intro c hc
      by_cases h0 : takeRight (stripChars year) 4 = []
      · rw [if_pos h0] at hc
        exact Or.inr (hc1 c hc)
      · rw [if_neg h0] at hc
        exact Or.inl (hyr c hc)
    rcases hmem with rfl | rfl | rfl | rfl
    · intro c hc
      rcases hyr4 c hc with hm | hm
      · exact Or.inr (Or.inl hm)
      · exact Or.inr (Or.inr hm)
    · intro c hc
      by_cases h0 : takeRight (stripChars year) 4 = []
      · rw [if_pos h0] at hc
        exact Or.inr (Or.inr (hc1 c (mem_takeRight hc)))
      · rw [if_neg h0] at hc
        exact Or.inr (Or.inl (hyr c (mem_takeRight hc)))
    · intro c hc
      rcases List.mem_append.mp hc with hm | hm
      · rcases hmo c hm with rfl | hm2
        · exact Or.inl rfl
        · exact Or.inr (Or.inr hm2)
      · rcases hdy c hm with rfl | hm2
        · exact Or.inl rfl
        · exact Or.inr (Or.inr hm2)
    · intro c hc
      rcases hdy c (mem_takeRight hc) with rfl | hm2
      · exact Or.inl rfl
      · exact Or.inr (Or.inr hm2)
  · have hlen : (splitOnChar '/' (replaceDash (stripChars dob))).length ≠ 3 := by
      intro hl
      exact h3 (List.length_eq_three.mp hl)
    rw [parse_dates_not_three year hlen] at hmem
    simp only [List.mem_cons, List.not_mem_nil, or_false] at hmem
    rcases hmem with rfl | rfl | rfl | rfl
    · intro c hc
      exact Or.inr (Or.inl (hyr c hc))
    · intro c hc
      exact Or.inr (Or.inl (hyr c (mem_takeRight hc)))
    · exact absurd rfl hne
    · exact absurd rfl hne

theorem dy2_ne_of_md_ne {year dob : List Char}
    (h : (parse_dates year dob).md ≠ []) :
    (parse_dates year dob).dy2 ≠ [] := by
  by_cases h3 : ∃ p1 p2 p3,
      splitOnChar '/' (replaceDash (stripChars dob)) = [p1, p2, p3]
  · obtain ⟨p1, p2, p3, hsp⟩ := h3
    rw [parse_dates_of_three year hsp]
    have hlen := zfill2_length p3
    intro hc
    have := congrArg List.length hc
    simp only [takeRight, List.length_drop, List.length_nil] at this
    omega
  · exfalso
    have hlen : (splitOnChar '/' (replaceDash (stripChars dob))).length ≠ 3 := by
      intro hl
      exact h3 (List.length_eq_three.mp hl)
    rw [parse_dates_not_three year hlen] at h
    exact h rfl

theorem ini_ne_nil {tk : List Char} (h : tk ≠ []) : ini tk ≠ [] := by
  cases tk with
  | nil => exact absurd rfl h
  | cons c tk' => simp [ini]

theorem SegP_opt {fld : List Char} (hdot : ∀ c ∈ fld, c ≠ '.')
    (hne : (if fld ≠ [] then low (stripChars fld) else []) ≠ []) :
    SegP (if fld ≠ [] then low (stripChars fld) else []) := by
  by_cases h1 : fld = []
  · rw [if_neg (by simp [h1])] at hne
    exact absurd rfl hne
  · rw [if_pos h1] at hne ⊢
    refine SegP_low_strip ?_ hdot
    intro hs0
    exact hne (by simp [low, hs0])

theorem datesOf_SegP {year dob : List Char}
    (hdyr : ∀ c ∈ year, c ≠ '.') (hdd : ∀ c ∈ dob, c ≠ '.')
    (hwy : noWs year) (hwd : noWs dob) :
    ∀ d ∈ datesOf year dob, SegP d := by
  intro d hd
  obtain ⟨hne, hchars⟩ := datesOf_chars hd
  refine SegP_of_noWs hne ?_ ?_
  · intro c hc
    rcases hchars c hc with rfl | hm | hm
    · decide
    · exact hdyr c hm
    · exact hdd c hm
  · intro c hc
    rcases hchars c hc with rfl | hm | hm
    · decide
    · exact hwy c hm
    · exact hwd c hm

theorem cnDot_of_fields (last first alias1 alias2 year dob : List Char)
    (hfirst : stripChars first ≠ []) (hlast : stripChars last ≠ [])
    (hdf : ∀ c ∈ first, c ≠ '.') (hdl : ∀ c ∈ last, c ≠ '.')
    (hda : ∀ c ∈ alias1, c ≠ '.') (hda2 : ∀ c ∈ alias2, c ≠ '.')
    (hdyr : ∀ c ∈ year, c ≠ '.') (hdd : ∀ c ∈ dob, c ≠ '.')
    (hwy : noWs year) (hwd : noWs dob) :
    CnDot (cnDerive last first alias1 alias2 year dob) := by
  have hS : SegP (low (stripChars last)) := SegP_low_strip hlast hdl
  have hSI : SegP (ini (low (stripChars last))) := SegP_ini hS
  have hLow : SegP (low (stripChars first)) := SegP_low_strip hfirst hdf
  have hpart : ∀ part ∈ pysplit (low (stripChars first)), SegP part := by
    intro part hp
    rw [pysplit, List.mem_filter] at hp
    obtain ⟨hp1, hpne⟩ := hp
    refine SegP_of_noWs (by simpa using hpne) ?_ ?_
    · intro c hc
      have hcl := (splitPred_part_mem hp1 hc).1
      obtain ⟨c0, hc0, rfl⟩ := mem_low hcl
      intro hde
      exact hdf c0 (mem_stripChars hc0) (toLower_eq_dot hde)
    · intro c hc
      exact (splitPred_part_mem hp1 hc).2
  have hgpne : pysplit (low (stripChars first)) ≠ [] := by
    have hLne : low (stripChars first) ≠ [] := by
      simp only [low, ne_eq, List.map_eq_nil_iff]
      exact hfirst
    obtain ⟨c, hc⟩ : ∃ c, (low (stripChars first)).head? = some c := by
      cases hL : (low (stripChars first)).head? with
      | none => exact absurd (List.head?_eq_none_iff.mp hL) hLne
      | some c => exact ⟨c, rfl⟩
    have hcm : c ∈ low (stripChars first) :=
      List.mem_of_mem_head? (by rw [hc]; rfl)
    have hcw : Char.isWhitespace c = false := hLow.2.2.1 c hc
    obtain ⟨part, hpmem, hcp⟩ := splitPred_covers hcm hcw
    intro hnil
    have hm2 : part ∈ pysplit (low (stripChars first)) := by
      rw [pysplit, List.mem_filter]
      exact ⟨hpmem, by simpa using List.ne_nil_of_mem hcp⟩
    rw [hnil] at hm2
    exact (List.not_mem_nil part) hm2
  have hdates := datesOf_SegP hdyr hdd hwy hwd
  rcases hgp : pysplit (low (stripChars first)) with _ | ⟨p0, rest⟩
  · exact absurd hgp hgpne
  · have hp0 : SegP p0 := hpart p0 (hgp ▸ List.mem_cons_self _ _)
    have hg1 : (cnDerive last first alias1 alias2 year dob).g1 = p0 := by
      show (match pysplit (low (stripChars first)) with
        | p :: _ => p | [] => []) = p0
      rw [hgp]
    cases rest with
    | nil =>
      have hg2 : (cnDerive last first alias1 alias2 year dob).g2 = [] := by
        show (match pysplit (low (stripChars first)) with
          | _ :: p :: _ => p | _ => []) = []
        rw [hgp]
      have hgEq : (cnDerive last first alias1 alias2 year dob).g = p0 := by
        show (match pysplit (low (stripChars first)) with
            | p :: _ => p | [] => []) ++
          (match pysplit (low (stripChars first)) with
            | _ :: p :: _ => p | _ => []) = p0
        rw [hgp]
        simp
      have hgiEq : (cnDerive last first alias1 alias2 year dob).gi =
          ini p0 := by
        show ini (match pysplit (low (stripChars first)) with
            | p :: _ => p | [] => []) ++
          (if (match pysplit (low (stripChars first)) with
            | _ :: p :: _ => p | _ => []) ≠ [] then
            ini (match pysplit (low (stripChars first)) with
              | _ :: p :: _ => p | _ => []) else []) = ini p0
        rw [hgp]
        simp
      have hGI : SegP (cnDerive last first alias1 alias2 year dob).gi := by
        rw [hgiEq]
        exact SegP_ini hp0
      have hG : SegP (cnDerive last first alias1 alias2 year dob).g := by
        rw [hgEq]
        exact hp0
      refine ⟨hS, fun h => SegP_opt hda h, fun h => SegP_opt hda2 h, hG,
        ?_, hSI, hGI, ?_, SegP_append hSI hGI, ?_, ?_, ?_, ?_, hdates⟩
      · intro h
        rw [hg2] at h
        exact absurd rfl h
      · intro hA
        have hai : (cnDerive last first alias1 alias2 year dob).ai =
            ini ((cnDerive last first alias1 alias2 year dob).a) :=
          if_pos hA
        rw [hai]
        exact SegP_ini (SegP_opt hda hA)
      · intro hA
        have haine : (cnDerive last first alias1 alias2 year dob).ai ≠ [] := by
          have hai : (cnDerive last first alias1 alias2 year dob).ai =
              ini ((cnDerive last first alias1 alias2 year dob).a) :=
            if_pos hA
          rw [hai]
          exact ini_ne_nil hA
        have hias : (cnDerive last first alias1 alias2 year dob).init_as =
            (cnDerive last first alias1 alias2 year dob).ai ++
              (cnDerive last first alias1 alias2 year dob).si :=
          if_pos haine
        rw [hias]
        refine SegP_append ?_ hSI
        have hai : (cnDerive last first alias1 alias2 year dob).ai =
            ini ((cnDerive last first alias1 alias2 year dob).a) :=
          if_pos hA
        rw [hai]
        exact SegP_ini (SegP_opt hda hA)
      · intro hA
        have haine : (cnDerive last first alias1 alias2 year dob).ai ≠ [] := by
          have hai : (cnDerive last first alias1 alias2 year dob).ai =
              ini ((cnDerive last first alias1 alias2 year dob).a) :=
            if_pos hA
          rw [hai]
          exact ini_ne_nil hA
        have hiasg : (cnDerive last first alias1 alias2 year dob).init_asg =
            (cnDerive last first alias1 alias2 year dob).ai ++
              (cnDerive last first alias1 alias2 year dob).init_sg :=
          if_pos haine
        rw [hiasg]
        refine SegP_append ?_ (SegP_append hSI hGI)
        have hai : (cnDerive last first alias1 alias2 year dob).ai =
            ini ((cnDerive last first alias1 alias2 year dob).a) :=
          if_pos hA
        rw [hai]
        exact SegP_ini (SegP_opt hda hA)
      · intro h
        exact hdates _ (by
          rw [datesOf, List.mem_filter]
          exact ⟨List.mem_cons_of_mem _ (List.mem_cons_of_mem _
            (List.mem_cons_of_mem _ (List.mem_cons_self _ _))),
            by simpa using h⟩)
      · intro h
        exact hdates _ (by
          rw [datesOf, List.mem_filter]
          exact ⟨List.mem_cons_of_mem _ (List.mem_cons_self _ _),
            by simpa using h⟩)
    | cons p1 rest' =>
      have hp1 : SegP p1 := hpart p1 (hgp ▸ List.mem_cons_of_mem _
        (List.mem_cons_self _ _))
      have hg2 : (cnDerive last first alias1 alias2 year dob).g2 = p1 := by
        show (match pysplit (low (stripChars first)) with
          | _ :: p :: _ => p | _ => []) = p1
        rw [hgp]
      have hgEq : (cnDerive last first alias1 alias2 year dob).g =
          p0 ++ p1 := by
        show (match pysplit (low (stripChars first)) with
            | p :: _ => p | [] => []) ++
          (match pysplit (low (stripChars first)) with
            | _ :: p :: _ => p | _ => []) = p0 ++ p1
        rw [hgp]
      have hgiEq : (cnDerive last first alias1 alias2 year dob).gi =
          ini p0 ++ ini p1 := by
        show ini (match pysplit (low (stripChars first)) with
            | p :: _ => p | [] => []) ++
          (if (match pysplit (low (stripChars first)) with
            | _ :: p :: _ => p | _ => []) ≠ [] then
            ini (match pysplit (low (stripChars first)) with
              | _ :: p :: _ => p | _ => []) else []) = ini p0 ++ ini p1
        rw [hgp]
        simp [hp1.1]
      have hGI : SegP (cnDerive last first alias1 alias2 year dob).gi := by
        rw [hgiEq]
        exact SegP_append (SegP_ini hp0) (SegP_ini hp1)
      have hG : SegP (cnDerive last first alias1 alias2 year dob).g := by
        rw [hgEq]
        exact SegP_append hp0 hp1
      refine ⟨hS, fun h => SegP_opt hda h, fun h => SegP_opt hda2 h, hG,
        ?_, hSI, hGI, ?_, SegP_append hSI hGI, ?_, ?_, ?_, ?_, hdates⟩
      · intro _
        rw [hg2]
        exact hp1
      · intro hA
        have hai : (cnDerive last first alias1 alias2 year dob).ai =
            ini ((cnDerive last first alias1 alias2 year dob).a) :=
          if_pos hA
        rw [hai]
        exact SegP_ini (SegP_opt hda hA)
      · intro hA
        have haine : (cnDerive last first alias1 alias2 year dob).ai ≠ [] := by
          have hai : (cnDerive last first alias1 alias2 year dob).ai =
              ini ((cnDerive last first alias1 alias2 year dob).a) :=
            if_pos hA
          rw [hai]
          exact ini_ne_nil hA
        have hias : (cnDerive last first alias1 alias2 year dob).init_as =
            (cnDerive last first alias1 alias2 year dob).ai ++
              (cnDerive last first alias1 alias2 year dob).si :=
          if_pos haine
        rw [hias]
        refine SegP_append ?_ hSI
        have hai : (cnDerive last first alias1 alias2 year dob).ai =
            ini ((cnDerive last first alias1 alias2 year dob).a) :=
          if_pos hA
        rw [hai]
        exact SegP_ini (SegP_opt hda hA)
      · intro hA
        have haine : (cnDerive last first alias1 alias2 year dob).ai ≠ [] := by
          have hai : (cnDerive last first alias1 alias2 year dob).ai =
              ini ((cnDerive last first alias1 alias2 year dob).a) :=
            if_pos hA
          rw [hai]
          exact ini_ne_nil hA
        have hiasg : (cnDerive last first alias1 alias2 year dob).init_asg =
            (cnDerive last first alias1 alias2 year dob).ai ++
              (cnDerive last first alias1 alias2 year dob).init_sg :=
          if_pos haine
        rw [hiasg]
        refine SegP_append ?_ (SegP_append hSI hGI)
        have hai : (cnDerive last first alias1 alias2 year dob).ai =
            ini ((cnDerive last first alias1 alias2 year dob).a) :=
          if_pos hA
        rw [hai]
        exact SegP_ini (SegP_opt hda hA)
      · intro h
        exact hdates _ (by
          rw [datesOf, List.mem_filter]
          exact ⟨List.mem_cons_of_mem _ (List.mem_cons_of_mem _
            (List.mem_cons_of_mem _ (List.mem_cons_self _ _))),
            by simpa using h⟩)
      · intro h
        exact hdates _ (by
          rw [datesOf, List.mem_filter]
          exact ⟨List.mem_cons_of_mem _ (List.mem_cons_self _ _),
            by simpa using h⟩)

theorem wDot_of_fields (first last middle alias1 alias2 year dob : List Char)
    (hfirst : stripChars first ≠ []) (hlast : stripChars last ≠ [])
    (hdf : ∀ c ∈ first, c ≠ '.') (hdl : ∀ c ∈ last, c ≠ '.')
    (hdm : ∀ c ∈ middle, c ≠ '.') (hda : ∀ c ∈ alias1, c ≠ '.')
    (hda2 : ∀ c ∈ alias2, c ≠ '.') (hdyr : ∀ c ∈ year, c ≠ '.')
    (hdd : ∀ c ∈ dob, c ≠ '.') (hwy : noWs year) (hwd : noWs dob) :
    WDot (wDerive first last middle alias1 alias2 year dob) := by
  have hF : SegP (low (stripChars first)) := SegP_low_strip hfirst hdf
  have hL : SegP (low (stripChars last)) := SegP_low_strip hlast hdl
  have hFI : SegP (ini (low (stripChars first))) := SegP_ini hF
  have hLI : SegP (ini (low (stripChars last))) := SegP_ini hL
  have hdates := datesOf_SegP hdyr hdd hwy hwd
  have hMI : (wDerive first last middle alias1 alias2 year dob).m ≠ [] →
      SegP (wDerive first last middle alias1 alias2 year dob).mi := by
    intro hM
    have hmi : (wDerive first last middle alias1 alias2 year dob).mi =
        ini ((wDerive first last middle alias1 alias2 year dob).m) :=
      if_pos hM
    rw [hmi]
    exact SegP_ini (SegP_opt hdm hM)
  have hML : (wDerive first last middle alias1 alias2 year dob).m ≠ [] →
      SegP (wDerive first last middle alias1 alias2 year dob).ml := by
    intro hM
    have h1 : (wDerive first last middle alias1 alias2 year dob).ml =
        (wDerive first last middle alias1 alias2 year dob).m ++
          low (stripChars last) :=
      if_pos hM
    rw [h1]
    exact SegP_append (SegP_opt hdm hM) hL
  have hDY2 : (wDerive first last middle alias1 alias2 year dob).dy2 ≠ [] →
      SegP (wDerive first last middle alias1 alias2 year dob).dy2 := by
    intro h
    exact hdates _ (by
      rw [datesOf, List.mem_filter]
      exact ⟨List.mem_cons_of_mem _ (List.mem_cons_of_mem _
        (List.mem_cons_of_mem _ (List.mem_cons_self _ _))),
        by simpa using h⟩)
  refine ⟨hF, hL, fun h => SegP_opt hdm h, fun h => SegP_opt hda h,
    fun h => SegP_opt hda2 h, hFI, hLI, hMI, ?_, SegP_append hFI hLI,
    ?_, hML, ?_, ?_, ?_, hDY2, ?_, hdates⟩
  · intro hA
    have hai : (wDerive first last middle alias1 alias2 year dob).ai =
        ini ((wDerive first last middle alias1 alias2 year dob).a) :=
      if_pos hA
    rw [hai]
    exact SegP_ini (SegP_opt hda hA)
  · by_cases hmi : (wDerive first last middle alias1 alias2 year dob).mi ≠ []
    · have hM : (wDerive first last middle alias1 alias2 year dob).m ≠ [] := by
        intro hm0
        exact hmi (if_neg (fun hc => hc hm0))
      have h1 : (wDerive first last middle alias1 alias2 year dob).init_fml =
          ini (low (stripChars first)) ++
            (wDerive first last middle alias1 alias2 year dob).mi ++
            ini (low (stripChars last)) :=
        if_pos hmi
      rw [h1]
      exact SegP_append (SegP_append hFI (hMI hM)) hLI
    · have h1 : (wDerive first last middle alias1 alias2 year dob).init_fml =
          ini (low (stripChars first)) ++ ini (low (stripChars last)) :=
        if_neg hmi
      rw [h1]
      exact SegP_append hFI hLI
  · intro h
    by_cases hM : (wDerive first last middle alias1 alias2 year dob).m ≠ []
    · exact hML hM
    · exact absurd (if_neg hM) h
  · intro h
    exact hdates _ (by
      rw [datesOf, List.mem_filter]
      exact ⟨List.mem_cons_of_mem _ (List.mem_cons_of_mem _
        (List.mem_cons_self _ _)), by simpa using h⟩)
  · intro h
    exact hDY2 (dy2_ne_of_md_ne h)
  · intro h
    exact hdates _ (by
      rw [datesOf, List.mem_filter]
      exact ⟨List.mem_cons_of_mem _ (List.mem_cons_self _ _),
        by simpa using h⟩)

/-- C10 counterexample: with trimmed first and last non-empty (but a last
name beginning with a dot), `generate_western` returns `".browncharlie"`,
which begins with a dot. -/
theorem western_dot_malformed_counterexample :
    (stripChars ("Charlie".data) ≠ [] ∧ stripChars (".Brown".data) ≠ []) ∧
    (".browncharlie".data) ∈ generate_western ("Charlie".data)
      (".Brown".data) [] [] [] [] ("1990/03/22".data) false ∧
    ¬ dotWF (".browncharlie".data) := by
  refine ⟨by decide, by decide, fun h => h.1 rfl⟩

/-- C10 (amended): if the trimmed first and last names are non-empty, no
input field contains a dot, and year and dob contain no whitespace, then
every string returned by `generate_chinese` and by `generate_western` is
dot-well-formed: it does not begin with '.', does not end with '.', and has
no two consecutive dots. -/
theorem generators_dot_well_formed
    (last first middle alias1 alias2 year dob : List Char) (full : Bool)
    (hfirst : stripChars first ≠ []) (hlast : stripChars last ≠ [])
    (hdf : ∀ c ∈ first, c ≠ '.') (hdl : ∀ c ∈ last, c ≠ '.')
    (hdm : ∀ c ∈ middle, c ≠ '.') (hda : ∀ c ∈ alias1, c ≠ '.')
    (hda2 : ∀ c ∈ alias2, c ≠ '.') (hdyr : ∀ c ∈ year, c ≠ '.')
    (hdd : ∀ c ∈ dob, c ≠ '.') (hwy : noWs year) (hwd : noWs dob) :
    (∀ x ∈ generate_chinese last first alias1 alias2 year dob full,
      dotWF x) ∧
    (∀ x ∈ generate_western first last middle alias1 alias2 year dob full,
      dotWF x) := by
  constructor
  · intro x hx
    have hxne : x ≠ [] := (trimGo_mem hx).1
    obtain ⟨y, hy, rfl⟩ := mem_trim hx
    rcases chineseCombos_nice (cnDot_of_fields last first alias1 alias2
        year dob hfirst hlast hdf hdl hda hda2 hdyr hdd hwy hwd) full y hy
      with rfl | hnice
    · exact absurd rfl hxne
    · obtain ⟨hne, hh, hl, hinf⟩ := nice_inv hnice
      have hid : stripChars y = y :=
        stripChars_eq_self (fun c hc => (hh c hc).2) (fun c hc => (hl c hc).2)
      rw [hid]
      exact ⟨fun hc => (hh '.' hc).1 rfl, fun hc => (hl '.' hc).1 rfl, hinf⟩
  · intro x hx
    have hxne : x ≠ [] := (trimGo_mem hx).1
    obtain ⟨y, hy, rfl⟩ := mem_trim hx
    rcases westernCombos_nice (wDot_of_fields first last middle alias1
        alias2 year dob hfirst hlast hdf hdl hdm hda hda2 hdyr hdd hwy hwd)
        full y hy with rfl | hnice
    · exact absurd rfl hxne
    · obtain ⟨hne, hh, hl, hinf⟩ := nice_inv hnice
      have hid : stripChars y = y :=
        stripChars_eq_self (fun c hc => (hh c hc).2) (fun c hc => (hl c hc).2)
      rw [hid]
      exact ⟨fun hc => (hh '.' hc).1 rfl, fun hc => (hl '.' hc).1 rfl, hinf⟩

theorem generators_dot_well_formed_witness :
    dotWF ("tommy.ctm".data) :=
  (generators_dot_well_formed ("Chan".data) ("Tai Man".data) []
    ("Tommy".data) [] [] ("2001/10/15".data) false (by decide) (by decide)
    (by decide) (by decide) (by decide) (by decide) (by decide) (by decide)
    (by decide) (by decide) (by decide)).1 _ (by decide)
